import Mathlib

/-!
Verification of the iota streaming-normalization library.

Shallow embedding of the TypeScript sources. Strings are modelled as
`List Char` (`Str`), JavaScript values flowing through `JSON.parse` /
tool-call arguments as the `Json` inductive, thrown exceptions as
`Except`/`Option`, and the stateful stream classes as explicit state
passing. Numeric costs use exact rationals in place of IEEE floats;
no claim below depends on float rounding.
-/

set_option maxRecDepth 4000

/-- Strings are modelled as lists of characters, so that the JS string
operations used by the source (`trim`, concatenation, `join`) stay fully
executable and provable. -/
abbrev Str := List Char

/-- The whitespace set trimmed by JavaScript `String.prototype.trim`
(ASCII whitespace plus NBSP, BOM and the Unicode line separators; the
exotic Unicode space characters are omitted as no source string uses
them). -/
def isJsWs (c : Char) : Bool :=
  c = ' ' || c = '\t' || c = '\n' || c = '\r' ||
  c = (Char.ofNat 0x0b) || c = (Char.ofNat 0x0c) ||
  c = (Char.ofNat 0xa0) || c = (Char.ofNat 0xfeff) ||
  c = (Char.ofNat 0x2028) || c = (Char.ofNat 0x2029)

/-- JavaScript `String.prototype.trim` on the `Str` model. -/
def jsTrim (s : Str) : Str :=
  ((s.dropWhile isJsWs).reverse.dropWhile isJsWs).reverse

/-- JavaScript `Array.prototype.join` with a separator (used for
`systemParts.join("\n\n")` and reasoning-summary joins). -/
def joinSep (sep : Str) : List Str → Str
  | [] => []
  | [x] => x
  | x :: xs => x ++ sep ++ joinSep sep xs

/-- `src/src/types.ts` / `part_009`: `Provider`. -/
inductive Provider where
  | openai
  | anthropic
  | gemini
deriving DecidableEq, Repr

/-- `src/src/types.ts` / `part_009`: the unified `StopReason`. -/
inductive StopReason where
  | stop
  | length
  | tool_use
  | error
  | aborted
deriving DecidableEq, Repr

/-- `src/src/types.ts` / `part_009`: `ReasoningEffort`. -/
inductive ReasoningEffort where
  | none
  | minimal
  | low
  | medium
  | high
  | xhigh
deriving DecidableEq, Repr

/-- JavaScript values produced by `JSON.parse` and carried as tool-call
arguments. Numbers keep their source lexeme: no claim depends on
numeric value normalization. -/
inductive Json where
  | null
  | bool (b : Bool)
  | num (lexeme : Str)
  | str (s : Str)
  | arr (elems : List Json)
  | obj (fields : List (Str × Json))

/-- Is the value a JSON object (including the empty object `{}`)? -/
def Json.isObj : Json → Bool
  | .obj _ => true
  | _ => false

/-- Is the value JSON `null` (the nullish case of `result ?? {}`)? -/
def Json.isNull : Json → Bool
  | .null => true
  | _ => false

def isJsonDigit (c : Char) : Bool := '0' ≤ c && c ≤ '9'

def isHexDigit (c : Char) : Bool :=
  isJsonDigit c || ('a' ≤ c && c ≤ 'f') || ('A' ≤ c && c ≤ 'F')

def hexVal (c : Char) : Nat :=
  if isJsonDigit c then c.toNat - '0'.toNat
  else if 'a' ≤ c && c ≤ 'f' then c.toNat - 'a'.toNat + 10
  else c.toNat - 'A'.toNat + 10

/-- Whitespace accepted between tokens by `JSON.parse` (ECMA-404). -/
def isJsonWs (c : Char) : Bool :=
  c = ' ' || c = '\t' || c = '\n' || c = '\r'

def skipJsonWs (s : Str) : Str := s.dropWhile isJsonWs

/-- Lex a JSON number starting at `s`; returns the lexeme and the rest.
Grammar: `-? (0 | [1-9][0-9]*) (\.[0-9]+)? ([eE][+-]?[0-9]+)?`. -/
def lexJsonNumber (s : Str) : Option (Str × Str) := do
  let (sign, s1) := match s with
    | '-' :: rest => (['-'], rest)
    | _ => ([], s)
  let (intPart, s2) ← (match s1 with
    | '0' :: rest => some (['0'], rest)
    | c :: rest =>
      if isJsonDigit c then
        let ds := rest.takeWhile isJsonDigit
        some (c :: ds, rest.drop ds.length)
      else none
    | [] => none)
  let (fracPart, s3) := (match s2 with
    | '.' :: rest =>
      let ds := rest.takeWhile isJsonDigit
      if ds.isEmpty then ([], s2) else ('.' :: ds, rest.drop ds.length)
    | _ => ([], s2))
  -- a '.' not followed by digits is a parse error in JSON
  if s3 = s2 && (match s2 with | '.' :: _ => true | _ => false) then none else
  let (expPart, s4) := (match s3 with
    | c :: rest =>
      if c = 'e' || c = 'E' then
        let (esign, r2) := match rest with
          | '+' :: r => (['+'], r)
          | '-' :: r => (['-'], r)
          | _ => (([] : Str), rest)
        let ds := r2.takeWhile isJsonDigit
        if ds.isEmpty then (([] : Str), s3)
        else (c :: (esign ++ ds), r2.drop ds.length)
      else ([], s3)
    | [] => ([], s3))
  if s4 = s3 && (match s3 with
      | c :: _ => c = 'e' || c = 'E'
      | _ => false) then none else
  some (sign ++ intPart ++ fracPart ++ expPart, s4)

/-- Parse the body of a JSON string literal (after the opening quote). -/
def parseJsonStringBody (fuel : Nat) (s : Str) : Option (Str × Str) :=
  match fuel with
  | 0 => none
  | fuel + 1 =>
    match s with
    | [] => none
    | '"' :: rest => some ([], rest)
    | '\\' :: e :: rest =>
      let step (c : Char) (r : Str) : Option (Str × Str) := do
        let (tail, r') ← parseJsonStringBody fuel r
        some (c :: tail, r')
      match e with
      | '"' => step '"' rest
      | '\\' => step '\\' rest
      | '/' => step '/' rest
      | 'b' => step (Char.ofNat 8) rest
      | 'f' => step (Char.ofNat 12) rest
      | 'n' => step '\n' rest
      | 'r' => step '\r' rest
      | 't' => step '\t' rest
      | 'u' =>
        match rest with
        | a :: b :: c :: d :: rest' =>
          if isHexDigit a && isHexDigit b && isHexDigit c && isHexDigit d then
            let n := ((hexVal a * 16 + hexVal b) * 16 + hexVal c) * 16 + hexVal d
            step (Char.ofNat n) rest'
          else none
        | _ => none
      | _ => none
    | c :: rest =>
      if c.toNat < 0x20 then none
      else do
        let (tail, r') ← parseJsonStringBody fuel rest
        some (c :: tail, r')

mutual

/-- Recursive-descent model of `JSON.parse` on one value. Consumes
leading whitespace, returns the parsed value and the rest of the
input. `fuel` only bounds recursion; `jsonParse` supplies enough for
any input. -/
def parseJsonValue (fuel : Nat) (s : Str) : Option (Json × Str) :=
  match fuel with
  | 0 => none
  | fuel + 1 =>
    match skipJsonWs s with
    | 'n' :: 'u' :: 'l' :: 'l' :: rest => some (.null, rest)
    | 't' :: 'r' :: 'u' :: 'e' :: rest => some (.bool true, rest)
    | 'f' :: 'a' :: 'l' :: 's' :: 'e' :: rest => some (.bool false, rest)
    | '"' :: rest => do
      let (body, r') ← parseJsonStringBody fuel rest
      some (.str body, r')
    | '[' :: rest =>
      (match skipJsonWs rest with
      | ']' :: r' => some (.arr [], r')
      | _ => do
        let (elems, r') ← parseJsonElements fuel rest
        some (.arr elems, r'))
    | '{' :: rest =>
      (match skipJsonWs rest with
      | '}' :: r' => some (.obj [], r')
      | _ => do
        let (fields, r') ← parseJsonMembers fuel rest
        some (.obj fields, r'))
    | rest => do
      let (lexeme, r') ← lexJsonNumber rest
      some (.num lexeme, r')

/-- One or more comma-separated array elements, then `]`. -/
def parseJsonElements (fuel : Nat) (s : Str) : Option (List Json × Str) :=
  match fuel with
  | 0 => none
  | fuel + 1 => do
    let (v, r) ← parseJsonValue fuel s
    match skipJsonWs r with
    | ',' :: r' => do
      let (vs, r'') ← parseJsonElements fuel r'
      some (v :: vs, r'')
    | ']' :: r' => some ([v], r')
    | _ => none

/-- One or more comma-separated object members, then `}`. -/
def parseJsonMembers (fuel : Nat) (s : Str) : Option (List (Str × Json) × Str) :=
  match fuel with
  | 0 => none
  | fuel + 1 =>
    match skipJsonWs s with
    | '"' :: rest => do
      let (key, r) ← parseJsonStringBody fuel rest
      match skipJsonWs r with
      | ':' :: r' => do
        let (v, r'') ← parseJsonValue fuel r'
        match skipJsonWs r'' with
        | ',' :: r3 => do
          let (fields, r4) ← parseJsonMembers fuel r3
          some ((key, v) :: fields, r4)
        | '}' :: r3 => some ([(key, v)], r3)
        | _ => none
      | _ => none
    | _ => none

end

/-- Model of `JSON.parse`: parse one value and require only whitespace
after it. `none` models a thrown `SyntaxError`. -/
def jsonParse (s : Str) : Option Json := do
  let (v, rest) ← parseJsonValue (s.length + 1) s
  if (skipJsonWs rest).isEmpty then some v else none

/-- `src/src/utils/json.ts`: `parseStreamingJson`. The external
`partial-json` library's `parse` is the parameter `pp` (`none` models a
throw). The input is `Option Str` because the TS parameter is
`string | undefined`; `!partialJson` is true exactly for `undefined`
and the empty string. `result ?? {}` maps a `null`/absent partial
result to `{}`. -/
def parseStreamingJson (pp : Str → Option Json) (partialJson : Option Str) : Json :=
  match partialJson with
  | none => .obj []
  | some s =>
    if s.isEmpty || (jsTrim s).isEmpty then .obj []
    else
      match jsonParse s with
      | some v => v
      | none =>
        match pp s with
        | some v => if v.isNull then .obj [] else v
        | none => .obj []

/-- `src/src/models.ts`: `Pricing` (per-million-token prices; exact
rationals in place of JS floats). -/
structure Pricing where
  inputPer1M : ℚ
  outputPer1M : ℚ
  cacheReadPer1M : ℚ
  cacheWritePer1M : ℚ

/-- `src/src/models.ts`: `Model.supports`. -/
structure ModelSupports where
  reasoning : Bool
  tools : Bool
  reasoningXhigh : Bool

/-- `src/src/models.ts`: the model descriptor. -/
structure Model where
  provider : Provider
  id : Str
  name : Str
  contextWindow : Int
  maxOutputTokens : Int
  supports : ModelSupports
  pricing : Pricing

/-- `src/src/types.ts`: `ServiceTier` (`standard | flex | priority`). -/
inductive ServiceTier where
  | standard
  | flex
  | priority
deriving DecidableEq, Repr

/-- `part_009` (current `types.ts`): `Usage.cost`. -/
structure Cost where
  input : ℚ
  output : ℚ
  cacheRead : ℚ
  cacheWrite : ℚ
  total : ℚ

/-- `part_009` (current `types.ts`): `Usage`. Token counts are `Int`
because JS arithmetic on them can go negative (e.g. the OpenAI
`input_tokens - cached` subtraction). -/
structure Usage where
  inputTokens : Int
  outputTokens : Int
  cacheReadTokens : Int
  cacheWriteTokens : Int
  totalTokens : Int
  cost : Cost

/-- `src/src/models.ts`: `openaiServiceTierCostMultiplier`. -/
def openaiServiceTierCostMultiplier (provider : Provider) (tier : Option ServiceTier) : ℚ :=
  if provider ≠ Provider.openai then 1
  else match tier with
    | none => 1
    | some .standard => 1
    | some .flex => 1 / 2
    | some .priority => 2

/-- `src/src/models.ts`: `calculateCost`. -/
def calculateCost (model : Model)
    (usage : Usage) (serviceTier : Option ServiceTier) : Cost :=
  let inputBase := model.pricing.inputPer1M / 1000000 * usage.inputTokens
  let outputBase := model.pricing.outputPer1M / 1000000 * usage.outputTokens
  let cacheReadBase := model.pricing.cacheReadPer1M / 1000000 * usage.cacheReadTokens
  let cacheWriteBase := model.pricing.cacheWritePer1M / 1000000 * usage.cacheWriteTokens
  let multiplier := openaiServiceTierCostMultiplier model.provider serviceTier
  let input := inputBase * multiplier
  let output := outputBase * multiplier
  let cacheRead := cacheReadBase * multiplier
  let cacheWrite := cacheWriteBase * multiplier
  { input := input, output := output, cacheRead := cacheRead, cacheWrite := cacheWrite,
    total := input + output + cacheRead + cacheWrite }

/-- `src/usage.ts` (re-exported through `stream.ts`): `emptyUsage`. -/
def emptyUsage : Usage :=
  { inputTokens := 0, outputTokens := 0, cacheReadTokens := 0, cacheWriteTokens := 0,
    totalTokens := 0,
    cost := { input := 0, output := 0, cacheRead := 0, cacheWrite := 0, total := 0 } }

/-- `part_009` (current `types.ts`): `AssistantPartMeta`, the
backend-tagged round-trip metadata blob. -/
inductive AssistantPartMeta where
  | openaiReasoningItem (item : Json)
  | openaiMessageId (id : Str)
  | openaiFunctionCallItemId (id : Str)
  | anthropicThinkingSignature (signature : Str)
  | geminiThoughtSignature (signature : Str)

/-- `part_009` (current `types.ts`): `AssistantPart`. -/
inductive AssistantPart where
  | text (text : Str) (meta : Option AssistantPartMeta)
  | thinking (text : Str) (meta : Option AssistantPartMeta)
  | tool_call (id : Str) (name : Str) (args : Json) (meta : Option AssistantPartMeta)

def AssistantPart.isThinking : AssistantPart → Bool
  | .thinking _ _ => true
  | _ => false

def AssistantPart.isToolCall : AssistantPart → Bool
  | .tool_call _ _ _ _ => true
  | _ => false

/-- `part_009` (current `types.ts`): `ToolMessage`. -/
structure ToolMessage where
  toolCallId : Str
  toolName : Str
  content : Str
  isError : Option Bool

/-- `part_009` (current `types.ts`): `AssistantMessageInput` (the
`role` discriminant lives in the `Message` sum). `content` is
`string | AssistantPart[]`. -/
structure AssistantMessageInput where
  content : Sum Str (List AssistantPart)
  provider : Option Provider
  model : Option Str
  stopReason : Option StopReason
  usage : Option Usage
  errorMessage : Option Str

/-- `part_009` (current `types.ts`): the `Message` union. -/
inductive Message where
  | system (content : Str)
  | user (content : Str)
  | assistant (msg : AssistantMessageInput)
  | tool (msg : ToolMessage)

/-- `part_009` (current `types.ts`): `Tool`. -/
structure Tool where
  name : Str
  description : Option Str
  parameters : Json

/-- `part_009` (current `types.ts`): `Context`. The normalized
context is represented by the same structure (every
`NormalizedMessage` is structurally a `Message`). -/
structure Context where
  system : Option Str
  messages : List Message
  tools : Option (List Tool)

/-- `part_006` (current `stream.ts`): `coerceAssistantContent`. -/
def coerceAssistantContent : Sum Str (List AssistantPart) → List AssistantPart
  | .inl s => [.text s none]
  | .inr parts => parts

/-- `part_006` (current `stream.ts`): `normalizeAssistantMessage`.
The matching branch copies the parts unchanged (`{...p}` is an
identity copy here); the non-matching branch rebuilds text parts from
`text`/`meta`, drops thinking parts, and spreads tool-call parts, and
returns a fresh assistant object with no provider/model tag. -/
def normalizeAssistantMessage (targetProvider : Provider) (targetModel : Str)
    (msg : AssistantMessageInput) : AssistantMessageInput :=
  let parts := coerceAssistantContent msg.content
  if msg.provider = some targetProvider ∧ msg.model = some targetModel then
    { msg with content := .inr parts }
  else
    let content : List AssistantPart := parts.filterMap (fun part =>
      match part with
      | .text t m => some (.text t m)
      | .thinking _ _ => none
      | .tool_call id name args m => some (.tool_call id name args m))
    { content := .inr content, provider := none, model := none,
      stopReason := none, usage := none, errorMessage := none }

/-- Length of `m.content` as JS reads it in the final filter of
`normalizeContextForTarget` (`.length` works on both a part list and
a plain string). -/
def contentLength : Sum Str (List AssistantPart) → Nat
  | .inl s => s.length
  | .inr parts => parts.length

/-- The `system`-entry collection step of `normalizeContextForTarget`
(the loop `for (const msg of context.messages) if (msg.role ===
"system" && ...) systemParts.push(msg.content.trim())`). -/
def normalizeSystemPiece : Message → Option Str
  | .system content =>
    if (jsTrim content).length > 0 then some (jsTrim content) else none
  | _ => none

/-- The per-message rewrite step of `normalizeContextForTarget`'s main
loop: drop `system` entries, pass `user` entries through, normalize
`assistant` entries, and default a tool entry's `isError`. -/
def normalizeMessageStep (targetProvider : Provider) (targetModel : Str) :
    Message → Option Message
  | .system _ => none
  | .user content => some (.user content)
  | .assistant m =>
    some (.assistant (normalizeAssistantMessage targetProvider targetModel m))
  | .tool m => some (.tool { m with isError := some (m.isError.getD false) })

/-- The final empty-entry filter of `normalizeContextForTarget`:
assistant entries need a nonempty part list, user entries nonblank
text. -/
def normalizeMessageKeep : Message → Bool
  | .assistant m => contentLength m.content > 0
  | .user content => (jsTrim content).length > 0
  | _ => true

/-- `part_006` (current `stream.ts`): `normalizeContextForTarget`. -/
def normalizeContextForTarget (target : Model) (context : Context) : Context :=
  let targetProvider := target.provider
  let targetModel := target.id
  let systemParts : List Str :=
    (match context.system with
      | some s => if (jsTrim s).length > 0 then [jsTrim s] else []
      | none => []) ++
    context.messages.filterMap normalizeSystemPiece
  let system : Option Str :=
    if systemParts.length > 0 then some (joinSep "\n\n".toList systemParts) else none
  let messages : List Message :=
    context.messages.filterMap (normalizeMessageStep targetProvider targetModel)
  { system := system,
    messages := messages.filter normalizeMessageKeep,
    tools := context.tools }

/-- `part_009` (current `types.ts`): `AssistantMessageDraft` (the
`role`/`provider`/`model` header plus optional trailing fields). -/
structure AssistantMessageDraft where
  provider : Provider
  model : Str
  content : List AssistantPart
  stopReason : Option StopReason
  usage : Option Usage
  errorMessage : Option Str

/-- `part_009` (current `types.ts`): the frozen `AssistantMessage`. -/
structure AssistantMessage where
  provider : Provider
  model : Str
  content : List AssistantPart
  stopReason : StopReason
  usage : Usage
  errorMessage : Option Str

/-- `part_009` (current `types.ts`): `AssistantStreamEvent`. The TS
`partial` field (a live reference to the draft) is modelled as the
draft's value at push time and named `snapshot` because `partial` is a
Lean keyword. -/
inductive AssistantStreamEvent where
  | start (snapshot : AssistantMessageDraft)
  | part_start (index : Nat) (snapshot : AssistantMessageDraft)
  | part_delta (index : Nat) (delta : Str) (snapshot : AssistantMessageDraft)
  | part_end (index : Nat) (snapshot : AssistantMessageDraft)
  | done (message : AssistantMessage)
  | error (error : AssistantMessage)

/-- `src/src/stream-controller.ts` `StreamController.finish` (lines
62-93) as a pure function: the cancellation override, the usage/stop
defaults, the `stop → tool_use` promotion, the freeze, and the choice
of terminal event. Returns the frozen message and the terminal event
pushed. `signalAborted` is `this.options.signal?.aborted`. -/
def StreamController.finish (model : Model) (signalAborted : Bool)
    (draft : AssistantMessageDraft) : AssistantMessage × AssistantStreamEvent :=
  let draft :=
    if signalAborted then
      { draft with stopReason := some .aborted,
                   errorMessage := some (draft.errorMessage.getD "Request was aborted".toList) }
    else draft
  let usage0 := draft.usage.getD emptyUsage
  let usage : Usage := { usage0 with cost := calculateCost model usage0 none }
  let stopReason0 := draft.stopReason.getD .stop
  let stopReason :=
    if draft.content.any AssistantPart.isToolCall ∧ stopReason0 = .stop then
      StopReason.tool_use
    else stopReason0
  if stopReason = .error ∨ stopReason = .aborted then
    -- `if (!final.errorMessage)` is truthy-based: both `undefined` and `""`
    -- are replaced by "Request failed".
    let em := draft.errorMessage.getD []
    let msg : AssistantMessage :=
      { provider := draft.provider, model := draft.model, content := draft.content,
        stopReason := stopReason, usage := usage,
        errorMessage := some (if em.isEmpty then "Request failed".toList else em) }
    (msg, .error msg)
  else
    let msg : AssistantMessage :=
      { provider := draft.provider, model := draft.model, content := draft.content,
        stopReason := stopReason, usage := usage, errorMessage := draft.errorMessage }
    (msg, .done msg)

/-- `src/src/stream-controller.ts` `StreamController.fail` (lines
95-109) as a pure function. `errMessage` is the stringified thrown
error (`error instanceof Error ? error.message : String(error)`). -/
def StreamController.fail (signalAborted : Bool) (errMessage : Str)
    (draft : AssistantMessageDraft) : AssistantMessage × AssistantStreamEvent :=
  let stopReason := if signalAborted then StopReason.aborted else .error
  let usage := draft.usage.getD emptyUsage
  let em :=
    if errMessage.isEmpty then
      if stopReason = .aborted then "Request was aborted".toList else "Request failed".toList
    else errMessage
  let msg : AssistantMessage :=
    { provider := draft.provider, model := draft.model, content := draft.content,
      stopReason := stopReason, usage := usage, errorMessage := some em }
  (msg, .error msg)

/-- The error thrown by `AssistantStream.resultOrThrow`
(`src/src/assistant-stream.ts` lines 16-24): an `Error` whose
`assistantMessage` property carries the partial message. -/
structure ResultThrownError where
  message : Str
  assistantMessage : AssistantMessage

/-- `src/src/assistant-stream.ts`: `resultOrThrow`, applied to the
already-resolved final message (`await this.result()`); `Except.error`
models a throw. -/
def AssistantStream.resultOrThrow (msg : AssistantMessage) :
    Except ResultThrownError AssistantMessage :=
  if msg.stopReason = .error ∨ msg.stopReason = .aborted then
    .error { message := msg.errorMessage.getD "Request failed".toList, assistantMessage := msg }
  else
    .ok msg

/-- `src/src/event-stream.ts`: the observable state of an
`EventStream`. `waitingCount` is the number of suspended consumers,
`done` the closed flag, `resolved` the terminal-result promise
(`none` = still pending; a promise resolves at most once, so the first
value sticks). -/
structure EventStreamState (E R : Type) where
  queue : List E
  waitingCount : Nat
  done : Bool
  resolved : Option R

/-- The freshly constructed `EventStream`. -/
def EventStream.init (E R : Type) : EventStreamState E R :=
  { queue := [], waitingCount := 0, done := false, resolved := none }

/-- `src/src/event-stream.ts` `push` (lines 17-28): no-op when closed;
a completing event closes the stream and resolves the future; the
event is handed to a waiting consumer if any, else buffered. -/
def EventStream.push {E R : Type} (isComplete : E → Bool) (extractResult : E → R)
    (event : E) (s : EventStreamState E R) : EventStreamState E R :=
  if s.done then s
  else
    let s :=
      if isComplete event then
        { s with done := true, resolved := s.resolved <|> some (extractResult event) }
      else s
    if s.waitingCount > 0 then { s with waitingCount := s.waitingCount - 1 }
    else { s with queue := s.queue ++ [event] }

/-- `src/src/event-stream.ts` `end` (lines 30-37): force-close,
resolve the future only when a result argument is supplied, and
release every suspended consumer with an end-of-sequence signal.
(Named `endOp` because `end` is a Lean keyword.) -/
def EventStream.endOp {E R : Type} (result : Option R)
    (s : EventStreamState E R) : EventStreamState E R :=
  { s with done := true, resolved := s.resolved <|> result, waitingCount := 0 }

/-- A caller-visible operation on an `EventStream`. -/
inductive EventStreamOp (E R : Type) where
  | push (event : E)
  | endOp (result : Option R)

def EventStream.applyOp {E R : Type} (isComplete : E → Bool) (extractResult : E → R)
    (s : EventStreamState E R) : EventStreamOp E R → EventStreamState E R
  | .push e => EventStream.push isComplete extractResult e s
  | .endOp r => EventStream.endOp r s

def EventStream.applyOps {E R : Type} (isComplete : E → Bool) (extractResult : E → R)
    (ops : List (EventStreamOp E R)) (s : EventStreamState E R) : EventStreamState E R :=
  ops.foldl (EventStream.applyOp isComplete extractResult) s

/-- `part_009` (current `types.ts`): `AgentResult` — the payload of the
agent loop's `done`/`error` events (`messages`, `stopReason`,
`errorMessage`). -/
structure AgentResult where
  messages : List Message
  stopReason : StopReason
  errorMessage : Option Str

/-- `part_009` (current `types.ts`): `AgentStreamEvent`. -/
inductive AgentStreamEvent where
  | turn_start (turn : Nat)
  | assistant_event (turn : Nat) (event : AssistantStreamEvent)
  | tool_result (turn : Nat) (message : ToolMessage)
  | done (result : AgentResult)
  | error (error : AgentResult)

/-- A tool-call part as the agent loop extracts it
(`Extract<AssistantPart, { type: "tool_call" }>`). -/
structure ToolCallPart where
  id : Str
  name : Str
  args : Json
  meta : Option AssistantPartMeta

/-- `part_006` `agent`: `toolCalls(message)` — the tool-call parts of
the assistant message's content, in part order. -/
def toolCalls (content : List AssistantPart) : List ToolCallPart :=
  content.filterMap (fun p =>
    match p with
    | .tool_call id name args meta => some { id := id, name := name, args := args, meta := meta }
    | _ => none)

/-- Outcome of invoking one caller-supplied tool handler. The JS loop
stringifies a returned value with `toolResultToString` and a thrown
error with `errorToString`; the model's handler yields those
stringified forms directly (`ok` = normal return, `thrown` = raised). -/
inductive HandlerOutcome where
  | ok (content : Str)
  | thrown (message : Str)

/-- The caller-supplied handler map (`ToolHandlers`): `none` models a
name with no handler. -/
def ToolHandlers : Type := Str → Option (Json → ToolCallPart → HandlerOutcome)

/-- An assistant message re-entering the history list (`messages.push
(assistant)`): a frozen `AssistantMessage` is structurally an
`AssistantMessageInput`. -/
def Message.ofAssistant (m : AssistantMessage) : Message :=
  .assistant { content := .inr m.content, provider := some m.provider,
               model := some m.model, stopReason := some m.stopReason,
               usage := some m.usage, errorMessage := m.errorMessage }

/-- `part_006` `agent`, lines 161-198: the per-turn tool-execution
loop. Walks the calls in part order; a missing handler pushes the
terminal `error` event (`Unknown tool: <name>`) and stops; otherwise
the handler runs, its outcome becomes a tool message that is appended
to `messages` and emitted as a `tool_result` event. Returns the final
history, the events pushed by the loop, and whether the loop
terminated the agent (`output.end()` was called). -/
def runToolCalls (handlers : ToolHandlers) (turn : Nat) :
    List ToolCallPart → List Message → List Message × List AgentStreamEvent × Bool
  | [], messages => (messages, [], false)
  | call :: rest, messages =>
    match handlers call.name with
    | none =>
      (messages,
       [.error { messages := messages, stopReason := .error,
                 errorMessage := some ("Unknown tool: ".toList ++ call.name) }],
       true)
    | some handler =>
      let (content, isError) :=
        match handler call.args call with
        | .ok content => (content, false)
        | .thrown message => (message, true)
      let toolMessage : ToolMessage :=
        { toolCallId := call.id, toolName := call.name, content := content,
          isError := some isError }
      let messages := messages ++ [.tool toolMessage]
      let (messages', events, stopped) := runToolCalls handlers turn rest messages
      (messages', .tool_result turn toolMessage :: events, stopped)

/-- `part_006` `agent`, lines 131-198: one turn's tail after the inner
streaming call resolved — append the assistant message to history,
terminate with `error` on `error`/`aborted`, terminate with `done`
when the turn produced no tool calls, otherwise run the tool loop.
Returns the new history, the events pushed, and whether the agent
terminated. -/
def agentTurnAfterStream (handlers : ToolHandlers) (turn : Nat)
    (messages : List Message) (assistant : AssistantMessage) :
    List Message × List AgentStreamEvent × Bool :=
  let messages := messages ++ [Message.ofAssistant assistant]
  if assistant.stopReason = .error ∨ assistant.stopReason = .aborted then
    (messages,
     [.error { messages := messages, stopReason := assistant.stopReason,
               errorMessage := assistant.errorMessage }],
     true)
  else
    let calls := toolCalls assistant.content
    if calls.isEmpty then
      (messages,
       [.done { messages := messages, stopReason := assistant.stopReason,
                errorMessage := assistant.errorMessage }],
       true)
    else
      runToolCalls handlers turn calls messages

/-- `src/src/providers/anthropic.ts` lines 309-322: `mapStopReason`.
All three adapters' mappings are embedded as `Except Str StopReason`
so that a thrown error is expressible; this one never throws — its
`default` branch returns the unified `error` value. -/
def mapStopReasonAnthropic (reason : Str) : Except Str StopReason :=
  if reason = "end_turn".toList then .ok .stop
  else if reason = "max_tokens".toList then .ok .length
  else if reason = "tool_use".toList then .ok .tool_use
  else if reason = "stop_sequence".toList then .ok .stop
  else .ok .error

/-- `src/src/providers/gemini.ts` lines 392-405: `mapStopReason` over
`interaction?.status` (`string | undefined`; `undefined` falls into
the `default` branch). Never throws — `default` returns `stop`. -/
def mapStopReasonGemini (status : Option Str) : Except Str StopReason :=
  match status with
  | none => .ok .stop
  | some s =>
    if s = "completed".toList then .ok .stop
    else if s = "requires_action".toList then .ok .tool_use
    else if s = "cancelled".toList then .ok .aborted
    else if s = "failed".toList then .ok .error
    else .ok .stop

/-- `src/src/providers/openai.ts` lines 390-409: `mapStopReason` over
`response?.status`. The guard `if (!status) return "stop"` is a JS
falsy check, so it covers both a missing status and the empty string;
the `default` branch throws `Unhandled OpenAI status: <status>`. -/
def mapStopReasonOpenAI (status : Option Str) : Except Str StopReason :=
  match status with
  | none => .ok .stop
  | some s =>
    if s.isEmpty then .ok .stop
    else if s = "completed".toList then .ok .stop
    else if s = "incomplete".toList then .ok .length
    else if s = "cancelled".toList then .ok .aborted
    else if s = "failed".toList then .ok .error
    else if s = "in_progress".toList then .ok .stop
    else if s = "queued".toList then .ok .stop
    else .error ("Unhandled OpenAI status: ".toList ++ s)

/-- `src/src/types.ts` (the types the inline providers compile
against): `AssistantPart` with the flat `signature` round-trip field. -/
inductive LegacyAssistantPart where
  | text (text : Str) (signature : Option Str)
  | thinking (text : Str) (signature : Option Str)
  | tool_call (id : Str) (name : Str) (args : Json) (signature : Option Str)

def LegacyAssistantPart.isToolCall : LegacyAssistantPart → Bool
  | .tool_call _ _ _ _ => true
  | _ => false

/-- `src/src/types.ts`: `AssistantMessageDraft` for the inline
providers. -/
structure LegacyDraft where
  provider : Provider
  model : Str
  content : List LegacyAssistantPart
  stopReason : Option StopReason
  usage : Option Usage
  errorMessage : Option Str

/-- `src/src/types.ts`: the frozen `AssistantMessage` for the inline
providers. -/
structure LegacyAssistantMessage where
  provider : Provider
  model : Str
  content : List LegacyAssistantPart
  stopReason : StopReason
  usage : Usage
  errorMessage : Option Str

/-- `src/src/types.ts`: `AssistantStreamEvent` over the legacy draft
(the `partial` reference is modelled as the value at push time). -/
inductive LegacyStreamEvent where
  | start (snapshot : LegacyDraft)
  | part_start (index : Nat) (snapshot : LegacyDraft)
  | part_delta (index : Nat) (delta : Str) (snapshot : LegacyDraft)
  | part_end (index : Nat) (snapshot : LegacyDraft)
  | done (message : LegacyAssistantMessage)
  | error (error : LegacyAssistantMessage)

/-- Is the event one of the two terminal variants? -/
def LegacyStreamEvent.isTerminal : LegacyStreamEvent → Bool
  | .done _ => true
  | .error _ => true
  | _ => false

/-- The pushes that `streamOpenAI`'s wire-event handler can perform
(`src/src/providers/openai.ts` lines 67-218): only the three part
lifecycle events — the handler never pushes `start`/`done`/`error`. -/
inductive OpenAILifecycleEvent where
  | part_start (index : Nat) (snapshot : LegacyDraft)
  | part_delta (index : Nat) (delta : Str) (snapshot : LegacyDraft)
  | part_end (index : Nat) (snapshot : LegacyDraft)

def OpenAILifecycleEvent.lift : OpenAILifecycleEvent → LegacyStreamEvent
  | .part_start i s => .part_start i s
  | .part_delta i d s => .part_delta i d s
  | .part_end i s => .part_end i s

/-- A content entry of an OpenAI `message` output item
(`output_text` / `refusal`; anything else is ignored by the code). -/
inductive OpenAIWireContentPart where
  | output_text (text : Str)
  | refusal (refusal : Str)
  | otherContent

/-- The OpenAI output items the handler inspects
(`reasoning` / `message` / `function_call`; other kinds fall
through). Reasoning summary entries are reduced to their `text`. -/
inductive OpenAIWireItem where
  | reasoning (summary : List Str)
  | message (id : Str) (content : List OpenAIWireContentPart)
  | functionCall (callId : Str) (name : Str) (itemId : Str) (arguments : Str)
  | otherItem

/-- The token counts of a `response.completed` event's `usage` object,
with the code's `|| 0` defaults for absent fields pre-applied
(`cached_tokens` is `usage.input_tokens_details?.cached_tokens`). -/
structure OpenAIUsagePayload where
  input_tokens : Int
  output_tokens : Int
  cached_tokens : Int
  total_tokens : Int

/-- The OpenAI Responses stream events handled by `streamOpenAI`
(`src/src/providers/openai.ts`); payloads carry exactly the fields the
handler reads, `otherEvent` stands for every unhandled event type. -/
inductive OpenAIWireEvent where
  | outputItemAdded (item : OpenAIWireItem)
  | reasoningSummaryPartAdded (partText : Str)
  | reasoningSummaryTextDelta (delta : Str)
  | reasoningSummaryPartDone
  | contentPartAdded (wirePart : OpenAIWireContentPart)
  | outputTextDelta (delta : Str)
  | refusalDelta (delta : Str)
  | functionCallArgumentsDelta (delta : Str)
  | outputItemDone (item : OpenAIWireItem)
  | responseCompleted (usagePayload : Option OpenAIUsagePayload) (status : Option Str)
  | errorEvent (message : Option Str)
  | responseFailed
  | otherEvent

/-- The `currentItem` local of `streamOpenAI`'s loop: the raw vendor
item object the handler mutates (`summary` / `content` are pushed to
and appended in place). -/
inductive OpenAICurrentItem where
  | reasoning (summary : List Str)
  | message (id : Str) (content : List OpenAIWireContentPart)
  | functionCall (callId : Str) (name : Str) (itemId : Str)

/-- The loop state of `streamOpenAI`: the draft message fields plus
the `currentItem`/`currentPart` locals. `currentPart` always aliases
the last element of `output.content`, so it is modelled by the flag
`curOpen` (is a part currently open?) plus `partialJson`, the scratch
field the code attaches to an open tool-call part. -/
structure OpenAIStreamState where
  content : List LegacyAssistantPart
  stopReason : Option StopReason
  usage : Option Usage
  errorMessage : Option Str
  currentItem : Option OpenAICurrentItem
  curOpen : Bool
  partialJson : Option Str

/-- The draft at `streamOpenAI` entry (lines 37-44). -/
def OpenAIStreamState.init : OpenAIStreamState :=
  { content := [], stopReason := some .stop, usage := some emptyUsage,
    errorMessage := none, currentItem := none, curOpen := false,
    partialJson := none }

/-- The `output` draft as events snapshot it. -/
def OpenAIStreamState.snapshot (model : Model) (st : OpenAIStreamState) : LegacyDraft :=
  { provider := Provider.openai, model := model.id, content := st.content,
    stopReason := st.stopReason, usage := st.usage,
    errorMessage := st.errorMessage }

/-- Replace the last element of a list (the in-place mutation of the
part `currentPart` aliases). -/
def modifyLast {α : Type} (f : α → α) : List α → List α
  | [] => []
  | [x] => [f x]
  | x :: xs => x :: modifyLast f xs

def OpenAIStreamState.lastPart (st : OpenAIStreamState) : Option LegacyAssistantPart :=
  st.content.getLast?

/-- `src/src/providers/openai.ts`: `usageFromOpenAI`. -/
def usageFromOpenAI (inputTokens outputTokens cacheReadTokens totalTokens : Int) : Usage :=
  { inputTokens := inputTokens, outputTokens := outputTokens,
    cacheReadTokens := cacheReadTokens, cacheWriteTokens := 0,
    totalTokens := totalTokens,
    cost := { input := 0, output := 0, cacheRead := 0, cacheWrite := 0, total := 0 } }

/-- The message of the `SyntaxError` thrown by a failing strict
`JSON.parse` (the exact engine wording is irrelevant to every claim). -/
def jsonParseErrorMessage : Str := "Unexpected token in JSON".toList

/-- `currentPart.text += delta` on the part `currentPart` aliases. -/
def LegacyAssistantPart.appendText (delta : Str) : LegacyAssistantPart → LegacyAssistantPart
  | .text t s => .text (t ++ delta) s
  | .thinking t s => .thinking (t ++ delta) s
  | p => p

/-- `currentPart.args = v` on an open tool-call part. -/
def LegacyAssistantPart.setToolArgs (v : Json) : LegacyAssistantPart → LegacyAssistantPart
  | .tool_call id name _ s => .tool_call id name v s
  | p => p

def OpenAIStreamState.lastIsThinking (st : OpenAIStreamState) : Bool :=
  match st.lastPart with
  | some (.thinking _ _) => true
  | _ => false

def OpenAIStreamState.lastIsText (st : OpenAIStreamState) : Bool :=
  match st.lastPart with
  | some (.text _ _) => true
  | _ => false

def OpenAIStreamState.lastIsToolCall (st : OpenAIStreamState) : Bool :=
  match st.lastPart with
  | some (.tool_call _ _ _ _) => true
  | _ => false

/-- `last.text += delta` on the last wire content entry of the current
`message` item. -/
def OpenAIWireContentPart.appendOutputText (delta : Str) :
    OpenAIWireContentPart → OpenAIWireContentPart
  | .output_text t => .output_text (t ++ delta)
  | p => p

/-- `last.refusal += delta` on the last wire content entry. -/
def OpenAIWireContentPart.appendRefusal (delta : Str) :
    OpenAIWireContentPart → OpenAIWireContentPart
  | .refusal t => .refusal (t ++ delta)
  | p => p

/-- `item.content.map(c => c.type === "output_text" ? c.text : c.refusal).join("")`
(the SDK union admits only the two variants). -/
def joinedMessageText (content : List OpenAIWireContentPart) : Str :=
  (content.map (fun c =>
    match c with
    | .output_text t => t
    | .refusal r => r
    | .otherContent => [])).flatten

/-- One iteration of the `for await` body of `streamOpenAI`
(`src/src/providers/openai.ts` lines 67-218). Returns the state after
the iteration, the events it pushed, and `some message` when the
iteration threw (the `error`/`response.failed` events, a failing
strict `JSON.parse`, or an unmapped `response.completed` status). -/
def handleOpenAIEvent (pp : Str → Option Json) (stringifyItem : OpenAIWireItem → Str)
    (model : Model) (reasoningEffort : ReasoningEffort) (st : OpenAIStreamState) :
    OpenAIWireEvent → OpenAIStreamState × List OpenAILifecycleEvent × Option Str
  | .outputItemAdded item =>
    (match item with
    | .reasoning summary =>
      if reasoningEffort = .none then (st, [], none)
      else
        let st := { st with currentItem := some (.reasoning summary),
                            content := st.content ++ [.thinking [] none],
                            curOpen := true, partialJson := none }
        (st, [.part_start (st.content.length - 1) (st.snapshot model)], none)
    | .message id contentParts =>
      let st := { st with currentItem := some (.message id contentParts),
                          content := st.content ++ [.text [] none],
                          curOpen := true, partialJson := none }
      (st, [.part_start (st.content.length - 1) (st.snapshot model)], none)
    | .functionCall callId name itemId arguments =>
      let st := { st with currentItem := some (.functionCall callId name itemId),
                          content := st.content ++
                            [.tool_call callId name (Json.obj []) (some itemId)],
                          curOpen := true, partialJson := some arguments }
      (st, [.part_start (st.content.length - 1) (st.snapshot model)], none)
    | .otherItem => (st, [], none))
  | .reasoningSummaryPartAdded partText =>
    (match st.currentItem with
    | some (.reasoning summary) =>
      ({ st with currentItem := some (.reasoning (summary ++ [partText])) }, [], none)
    | _ => (st, [], none))
  | .reasoningSummaryTextDelta delta =>
    (match st.currentItem with
    | some (.reasoning summary) =>
      if st.curOpen && st.lastIsThinking then
        match summary.getLast? with
        | none => (st, [], none)
        | some _ =>
          let st := { st with
            content := modifyLast (LegacyAssistantPart.appendText delta) st.content,
            currentItem := some (.reasoning (modifyLast (· ++ delta) summary)) }
          (st, [.part_delta (st.content.length - 1) delta (st.snapshot model)], none)
      else (st, [], none)
    | _ => (st, [], none))
  | .reasoningSummaryPartDone =>
    (match st.currentItem with
    | some (.reasoning summary) =>
      if st.curOpen && st.lastIsThinking then
        match summary.getLast? with
        | none => (st, [], none)
        | some _ =>
          let nl := "\n\n".toList
          let st := { st with
            content := modifyLast (LegacyAssistantPart.appendText nl) st.content,
            currentItem := some (.reasoning (modifyLast (· ++ nl) summary)) }
          (st, [.part_delta (st.content.length - 1) nl (st.snapshot model)], none)
      else (st, [], none)
    | _ => (st, [], none))
  | .contentPartAdded wirePart =>
    (match st.currentItem with
    | some (.message id content) =>
      (match wirePart with
      | .output_text _ =>
        ({ st with currentItem := some (.message id (content ++ [wirePart])) }, [], none)
      | .refusal _ =>
        ({ st with currentItem := some (.message id (content ++ [wirePart])) }, [], none)
      | .otherContent => (st, [], none))
    | _ => (st, [], none))
  | .outputTextDelta delta =>
    (match st.currentItem with
    | some (.message id content) =>
      if st.curOpen && st.lastIsText then
        match content.getLast? with
        | some (.output_text _) =>
          let st := { st with
            content := modifyLast (LegacyAssistantPart.appendText delta) st.content,
            currentItem := some (.message id
              (modifyLast (OpenAIWireContentPart.appendOutputText delta) content)) }
          (st, [.part_delta (st.content.length - 1) delta (st.snapshot model)], none)
        | _ => (st, [], none)
      else (st, [], none)
    | _ => (st, [], none))
  | .refusalDelta delta =>
    (match st.currentItem with
    | some (.message id content) =>
      if st.curOpen && st.lastIsText then
        match content.getLast? with
        | some (.refusal _) =>
          let st := { st with
            content := modifyLast (LegacyAssistantPart.appendText delta) st.content,
            currentItem := some (.message id
              (modifyLast (OpenAIWireContentPart.appendRefusal delta) content)) }
          (st, [.part_delta (st.content.length - 1) delta (st.snapshot model)], none)
        | _ => (st, [], none)
      else (st, [], none)
    | _ => (st, [], none))
  | .functionCallArgumentsDelta delta =>
    (match st.currentItem with
    | some (.functionCall _ _ _) =>
      if st.curOpen && st.lastIsToolCall then
        let pj := st.partialJson.getD [] ++ delta
        let args := parseStreamingJson pp (some pj)
        let st := { st with
          partialJson := some pj,
          content := modifyLast (LegacyAssistantPart.setToolArgs args) st.content }
        (st, [.part_delta (st.content.length - 1) delta (st.snapshot model)], none)
      else (st, [], none)
    | _ => (st, [], none))
  | .outputItemDone item =>
    (match item with
    | .reasoning summary =>
      if st.curOpen && st.lastIsThinking then
        let text := joinSep "\n\n".toList summary
        let sig := stringifyItem item
        let st := { st with
          content := modifyLast (fun _ => .thinking text (some sig)) st.content,
          curOpen := false, currentItem := none }
        (st, [.part_end (st.content.length - 1) (st.snapshot model)], none)
      else (st, [], none)
    | .message id content =>
      if st.curOpen && st.lastIsText then
        let text := joinedMessageText content
        let st := { st with
          content := modifyLast (fun _ => .text text (some id)) st.content,
          curOpen := false, currentItem := none }
        (st, [.part_end (st.content.length - 1) (st.snapshot model)], none)
      else (st, [], none)
    | .functionCall _ _ _ arguments =>
      if st.curOpen && st.lastIsToolCall then
        match jsonParse arguments with
        | none => (st, [], some jsonParseErrorMessage)
        | some args =>
          let st := { st with
            content := modifyLast (LegacyAssistantPart.setToolArgs args) st.content,
            partialJson := none, curOpen := false, currentItem := none }
          (st, [.part_end (st.content.length - 1) (st.snapshot model)], none)
      else (st, [], none)
    | .otherItem => (st, [], none))
  | .responseCompleted usagePayload status =>
    let st :=
      match usagePayload with
      | some u =>
        { st with usage := some (usageFromOpenAI (u.input_tokens - u.cached_tokens)
            u.output_tokens u.cached_tokens u.total_tokens) }
      | none => st
    -- the code computes `calculateCost(model, output.usage)` here and
    -- discards the result
    (match mapStopReasonOpenAI status with
    | .error m => (st, [], some m)
    | .ok sr =>
      let sr :=
        if st.content.any LegacyAssistantPart.isToolCall ∧ sr = .stop then
          StopReason.tool_use
        else sr
      ({ st with stopReason := some sr }, [], none))
  | .errorEvent message =>
    let m := message.getD []
    (st, [], some (if m.isEmpty then "OpenAI error".toList else m))
  | .responseFailed => (st, [], some "OpenAI request failed".toList)
  | .otherEvent => (st, [], none)

/-- Run the `for await` loop over the vendor events: accumulate pushed
lifecycle events until an iteration throws (remaining events are never
observed) or the sequence ends. -/
def runOpenAIEvents (pp : Str → Option Json) (stringifyItem : OpenAIWireItem → Str)
    (model : Model) (reasoningEffort : ReasoningEffort) :
    OpenAIStreamState → List OpenAIWireEvent →
    List OpenAILifecycleEvent × OpenAIStreamState × Option Str
  | st, [] => ([], st, none)
  | st, e :: rest =>
    match handleOpenAIEvent pp stringifyItem model reasoningEffort st e with
    | (st', evs, some m) => (evs, st', some m)
    | (st', evs, none) =>
      let (evs', st'', thrown) := runOpenAIEvents pp stringifyItem model reasoningEffort st' rest
      (evs ++ evs', st'', thrown)

/-- `src/src/providers/openai.ts` lines 220-237: the post-loop finish
block — cancellation override, usage/stop defaults, freeze, and the
single terminal `done`/`error` push. -/
def openAIFinishEvent (signalAborted : Bool) (model : Model)
    (st : OpenAIStreamState) : LegacyStreamEvent :=
  let st :=
    if signalAborted then
      { st with stopReason := some .aborted,
                errorMessage := some (st.errorMessage.getD "Request was aborted".toList) }
    else st
  let usage := st.usage.getD emptyUsage
  let stopReason := st.stopReason.getD .stop
  if stopReason = .error ∨ stopReason = .aborted then
    let em := st.errorMessage.getD []
    LegacyStreamEvent.error
      { provider := Provider.openai, model := model.id, content := st.content,
        stopReason := stopReason, usage := usage,
        errorMessage := some (if em.isEmpty then "Request failed".toList else em) }
  else
    LegacyStreamEvent.done
      { provider := Provider.openai, model := model.id, content := st.content,
        stopReason := stopReason, usage := usage, errorMessage := st.errorMessage }

/-- `src/src/providers/openai.ts` lines 238-244: the catch block — the
single terminal `error` push after the driving loop (or the opening
call) threw `thrownMessage`. -/
def openAICatchEvent (signalAborted : Bool) (model : Model)
    (st : OpenAIStreamState) (thrownMessage : Str) : LegacyStreamEvent :=
  LegacyStreamEvent.error
    { provider := Provider.openai, model := model.id, content := st.content,
      stopReason := if signalAborted then .aborted else .error,
      usage := st.usage.getD emptyUsage,
      errorMessage := some thrownMessage }

/-- What the vendor interaction does on one adapter invocation:
either opening the call throws (`buildParams` / client construction /
`client.responses.create`), or the opened stream yields a sequence of
wire events after which the iterator may itself throw. -/
inductive OpenAIVendorOutcome where
  | openFail (message : Str)
  | streamEvents (events : List OpenAIWireEvent) (iterThrow : Option Str)

/-- The terminal event of one `streamOpenAI` invocation whose vendor
call opened: the catch block's `error` if the loop body threw
(`thrown`) or the iterator itself threw afterwards (`iterThrow`),
otherwise the finish block's terminal event. -/
def openAITerminalEvent (signalAborted : Bool) (model : Model) (st : OpenAIStreamState)
    (thrown iterThrow : Option Str) : LegacyStreamEvent :=
  match thrown with
  | some m => openAICatchEvent signalAborted model st m
  | none =>
    match iterThrow with
    | some m => openAICatchEvent signalAborted model st m
    | none => openAIFinishEvent signalAborted model st

/-- The full event sequence `streamOpenAI` pushes into its
`AssistantStream` for one invocation (`src/src/providers/openai.ts`
lines 29-248): on a successful open, `start` is pushed, then the loop
runs, then either the finish block or the catch block pushes the
terminal event; when opening throws, the catch block's `error` is the
only event. `pp` is the external `partial-json` parser and
`stringifyItem` the `JSON.stringify` used for reasoning round-trip
signatures. -/
def streamOpenAITrace (pp : Str → Option Json) (stringifyItem : OpenAIWireItem → Str)
    (model : Model) (reasoningEffort : ReasoningEffort) (signalAborted : Bool) :
    OpenAIVendorOutcome → List LegacyStreamEvent
  | .openFail message =>
    [openAICatchEvent signalAborted model OpenAIStreamState.init message]
  | .streamEvents events iterThrow =>
    let (lifecycles, st, thrown) :=
      runOpenAIEvents pp stringifyItem model reasoningEffort OpenAIStreamState.init events
    LegacyStreamEvent.start (OpenAIStreamState.init.snapshot model) ::
      (lifecycles.map OpenAILifecycleEvent.lift ++
        [openAITerminalEvent signalAborted model st thrown iterThrow])

/-- An operation that can never resolve the terminal future: a push
whose event fails the completion predicate, or an `end()` with no
result argument. -/
def EventStreamOp.nonCompleting {E R : Type} (isComplete : E → Bool) :
    EventStreamOp E R → Prop
  | .push e => isComplete e = false
  | .endOp r => r = Option.none

/-- A concrete model descriptor (the `gpt-5.2` registry entry from
`src/src/models.ts`), used by concrete witnesses. -/
def sampleModel : Model :=
  { provider := .openai, id := "gpt-5.2".toList, name := "GPT-5.2".toList,
    contextWindow := 400000, maxOutputTokens := 128000,
    supports := { reasoning := true, tools := true, reasoningXhigh := true },
    pricing := { inputPer1M := 7/4, outputPer1M := 12, cacheReadPer1M := 1/5,
                 cacheWritePer1M := 0 } }

/-- Witness input: a draft whose part list ends in a tool call and
whose stop reason is the default `stop`. -/
def draftWithToolCall : AssistantMessageDraft :=
  { provider := .openai, model := "gpt-5.2".toList,
    content := [AssistantPart.text "hi".toList none,
                AssistantPart.tool_call "call_1".toList "search".toList (Json.obj []) none],
    stopReason := some .stop, usage := some emptyUsage, errorMessage := none }

/-- Witness input: a text-only draft with the default `stop`. -/
def draftTextOnly : AssistantMessageDraft :=
  { provider := .openai, model := "gpt-5.2".toList,
    content := [AssistantPart.text "hi".toList none],
    stopReason := some .stop, usage := some emptyUsage, errorMessage := none }

/-- Witness input: a draft with stop reason `length` and a tool call
(promotion must not fire). -/
def draftLengthWithToolCall : AssistantMessageDraft :=
  { provider := .openai, model := "gpt-5.2".toList,
    content := [AssistantPart.tool_call "call_1".toList "search".toList (Json.obj []) none],
    stopReason := some .length, usage := some emptyUsage, errorMessage := none }

/-- The tool entry carried by a message, if it is one. -/
def toolEntry : Message → Option ToolMessage
  | .tool m => some m
  | _ => none

/-- Witness input: an assistant entry recorded for a different
backend/model than the normalization target, with one part of each
kind. -/
def crossBackendAssistantMsg : AssistantMessageInput :=
  { content := Sum.inr
      [AssistantPart.text "a".toList none,
       AssistantPart.thinking "t".toList
         (some (.anthropicThinkingSignature "sig".toList)),
       AssistantPart.tool_call "id1".toList "search".toList
         (Json.obj [("q".toList, Json.str "x".toList)]) none],
    provider := some .anthropic, model := some "claude-4.6".toList,
    stopReason := none, usage := none, errorMessage := none }

/-- The tool message produced for one executed call: the handler's
return becomes a non-error result, a raised error an `isError := true`
result (the `none` branch is never used where the loop is known to
have found a handler). -/
def toolMessageFor (handlers : ToolHandlers) (call : ToolCallPart) : ToolMessage :=
  match handlers call.name with
  | some handler =>
    match handler call.args call with
    | .ok content =>
      { toolCallId := call.id, toolName := call.name, content := content,
        isError := some false }
    | .thrown message =>
      { toolCallId := call.id, toolName := call.name, content := message,
        isError := some true }
  | none =>
    { toolCallId := call.id, toolName := call.name, content := [],
      isError := some false }

/-- Witness input: a handler map knowing only the tool `search`. -/
def handlersC9 : ToolHandlers := fun name =>
  if name = "search".toList then some (fun _ _ => .ok "ok".toList) else none

/-- Witness input: an assistant turn invoking `search` and then the
unknown tool `compute`. -/
def assistantC9 : AssistantMessage :=
  { provider := .openai, model := "gpt-5.2".toList,
    content := [AssistantPart.tool_call "c1".toList "search".toList (Json.obj []) none,
                AssistantPart.tool_call "c2".toList "compute".toList (Json.obj []) none],
    stopReason := .tool_use, usage := emptyUsage, errorMessage := none }

/-- Is the event the initial `start` lifecycle event? -/
def LegacyStreamEvent.isStart : LegacyStreamEvent → Bool
  | .start _ => true
  | _ => false

/-- The string has no JS-trimmable whitespace at either edge (the
fixed points of `jsTrim`). -/
def noEdgeWs (s : Str) : Prop :=
  (∀ c ∈ s.head?, isJsWs c = false) ∧ (∀ c ∈ s.getLast?, isJsWs c = false)

/-- Witness input: a conversation for `gpt-5.2` with system text, a
system entry, a matching assistant entry, a user entry and a tool
result. -/
def ctxC7 : Context :=
  { system := some "  be brief \n".toList,
    messages :=
      [Message.system "extra rules".toList,
       Message.user "hello".toList,
       Message.assistant
         { content := .inr [AssistantPart.text "hi".toList none,
             AssistantPart.tool_call "c1".toList "search".toList (Json.obj []) none],
           provider := some .openai, model := some "gpt-5.2".toList,
           stopReason := some .tool_use, usage := none, errorMessage := none },
       Message.tool
         { toolCallId := "c1".toList, toolName := "search".toList,
           content := "result".toList, isError := none }],
    tools := none }

/-- C6: the claim as stated is false — on input `"null"` the strict
`JSON.parse` succeeds with `null`, which `parseStreamingJson` returns
directly; the result is neither a (possibly partial) JSON object nor
the empty object `{}`. -/
theorem claim_C6_counterexample :
    jsonParse "null".toList = some Json.null
    ∧ parseStreamingJson (fun _ => Option.none) (some "null".toList) = Json.null
    ∧ (parseStreamingJson (fun _ => Option.none) (some "null".toList)).isObj = false :=
  ⟨rfl, rfl, rfl⟩

/-- C6 (amended): for every input and every behaviour of the external
partial parser, `parseStreamingJson` returns without raising, and its
result is the empty object `{}`, or the strict `JSON.parse` value of
the input (any JSON value, not necessarily an object), or a non-null
value produced by the tolerant partial parser. -/
theorem claim_C6_parse_streaming_json (pp : Str → Option Json) (s : Option Str) :
    parseStreamingJson pp s = Json.obj []
    ∨ (∃ v, jsonParse (s.getD []) = some v ∧ parseStreamingJson pp s = v)
    ∨ (∃ v, pp (s.getD []) = some v ∧ v.isNull = false ∧ parseStreamingJson pp s = v) := by
  match s with
  | none => exact Or.inl rfl
  | some str =>
    by_cases h1 : str.isEmpty || (jsTrim str).isEmpty
    · left; simp [parseStreamingJson, h1]
    · cases hj : jsonParse str with
      | some v =>
        right; left
        exact ⟨v, by simpa using hj, by simp [parseStreamingJson, h1, hj]⟩
      | none =>
        cases hp : pp str with
        | none => left; simp [parseStreamingJson, h1, hj, hp]
        | some v =>
          by_cases hn : v.isNull
          · left; simp [parseStreamingJson, h1, hj, hp, hn]
          · right; right
            exact ⟨v, by simpa using hp, by simpa using hn,
              by simp [parseStreamingJson, h1, hj, hp, hn]⟩

/-- C5: the claim as stated is false — `"bogus"` is outside both the
Anthropic and the Gemini enumerations, yet neither mapping raises: the
Anthropic `default` silently returns the unified `error` value and the
Gemini `default` silently returns `stop`. -/
theorem claim_C5_counterexample :
    "bogus".toList ∉ ([ "end_turn".toList, "max_tokens".toList, "tool_use".toList,
        "stop_sequence".toList ] : List Str)
    ∧ mapStopReasonAnthropic "bogus".toList = Except.ok StopReason.error
    ∧ "bogus".toList ∉ ([ "completed".toList, "requires_action".toList,
        "cancelled".toList, "failed".toList ] : List Str)
    ∧ mapStopReasonGemini (some "bogus".toList) = Except.ok StopReason.stop := by
  refine ⟨by decide, rfl, by decide, rfl⟩

/-- C5 (amended): only the OpenAI adapter's stop-reason mapping treats
an out-of-enumeration status as a fatal internal error — it raises for
every unknown non-empty status, while its falsy guard maps a missing
or empty status to `stop` and `in_progress`/`queued` map to `stop`;
the Anthropic mapping silently returns `error` and the Gemini mapping
silently returns `stop` for every unknown value. -/
theorem claim_C5_stop_reason_mapping (s : Str) (hne : s ≠ [])
    (ha : s ∉ ([ "end_turn".toList, "max_tokens".toList, "tool_use".toList,
        "stop_sequence".toList ] : List Str))
    (hg : s ∉ ([ "completed".toList, "requires_action".toList, "cancelled".toList,
        "failed".toList ] : List Str))
    (ho : s ∉ ([ "completed".toList, "incomplete".toList, "cancelled".toList,
        "failed".toList, "in_progress".toList, "queued".toList ] : List Str)) :
    mapStopReasonAnthropic s = Except.ok StopReason.error
    ∧ mapStopReasonGemini (some s) = Except.ok StopReason.stop
    ∧ mapStopReasonOpenAI (some s) =
        Except.error ("Unhandled OpenAI status: ".toList ++ s)
    ∧ mapStopReasonOpenAI (some []) = Except.ok StopReason.stop
    ∧ mapStopReasonOpenAI Option.none = Except.ok StopReason.stop := by
  simp only [List.mem_cons, List.mem_singleton, not_or] at ha hg ho
  obtain ⟨ha1, ha2, ha3, ha4, -⟩ := ha
  obtain ⟨hg1, hg2, hg3, hg4, -⟩ := hg
  obtain ⟨ho1, ho2, ho3, ho4, ho5, ho6, -⟩ := ho
  have hne' : s.isEmpty = false := by
    cases s with
    | nil => exact absurd rfl hne
    | cons a t => rfl
  refine ⟨?_, ?_, ?_, rfl, rfl⟩
  · unfold mapStopReasonAnthropic
    rw [if_neg ha1, if_neg ha2, if_neg ha3, if_neg ha4]
  · simp only [mapStopReasonGemini]
    rw [if_neg hg1, if_neg hg2, if_neg hg3, if_neg hg4]
  · simp only [mapStopReasonOpenAI, hne', Bool.false_eq_true, if_false]
    rw [if_neg ho1, if_neg ho2, if_neg ho3, if_neg ho4, if_neg ho5, if_neg ho6]

/-- C5 witness: the amended theorem applied at the concrete unknown
status `"bogus"`, which also exercises the falsy-guard conjuncts for
the empty and missing status. -/
theorem claim_C5_witness :
    mapStopReasonAnthropic "bogus".toList = Except.ok StopReason.error
    ∧ mapStopReasonGemini (some "bogus".toList) = Except.ok StopReason.stop
    ∧ mapStopReasonOpenAI (some "bogus".toList) =
        Except.error ("Unhandled OpenAI status: ".toList ++ "bogus".toList)
    ∧ mapStopReasonOpenAI (some []) = Except.ok StopReason.stop
    ∧ mapStopReasonOpenAI Option.none = Except.ok StopReason.stop :=
  claim_C5_stop_reason_mapping "bogus".toList (by decide) (by decide) (by decide)
    (by decide)

/-- C8: `resultOrThrow` raises exactly for stop reasons
`error`/`aborted`, attaching the partial message to the raised error's
`assistantMessage` property (message text `errorMessage ?? "Request
failed"`); for every other stop reason it returns the message. -/
theorem claim_C8_result_or_throw (msg : AssistantMessage) :
    ((msg.stopReason = .error ∨ msg.stopReason = .aborted) →
      AssistantStream.resultOrThrow msg =
        Except.error { message := msg.errorMessage.getD "Request failed".toList,
                       assistantMessage := msg })
    ∧ (¬(msg.stopReason = .error ∨ msg.stopReason = .aborted) →
      AssistantStream.resultOrThrow msg = Except.ok msg) := by
  constructor
  · intro h; simp [AssistantStream.resultOrThrow, h]
  · intro h; simp [AssistantStream.resultOrThrow, h]

/-- C8 witness: a concrete aborted message throws with itself
attached; a concrete `stop` message is returned. -/
theorem claim_C8_witness :
    AssistantStream.resultOrThrow
        { provider := .openai, model := "gpt-5.2".toList, content := [],
          stopReason := .aborted, usage := emptyUsage, errorMessage := none } =
      Except.error { message := "Request failed".toList,
                     assistantMessage :=
                       { provider := .openai, model := "gpt-5.2".toList, content := [],
                         stopReason := .aborted, usage := emptyUsage,
                         errorMessage := none } }
    ∧ AssistantStream.resultOrThrow
        { provider := .openai, model := "gpt-5.2".toList, content := [],
          stopReason := .stop, usage := emptyUsage, errorMessage := none } =
      Except.ok
        { provider := .openai, model := "gpt-5.2".toList, content := [],
          stopReason := .stop, usage := emptyUsage, errorMessage := none } :=
  ⟨(claim_C8_result_or_throw _).1 (Or.inr rfl),
   (claim_C8_result_or_throw _).2 (by simp)⟩

/-- `push` cannot resolve the future when the event fails the
completion predicate. -/
theorem eventStream_push_nonCompleting {E R : Type} (isComplete : E → Bool)
    (extractResult : E → R) (e : E) (s : EventStreamState E R)
    (hs : s.resolved = Option.none) (he : isComplete e = false) :
    (EventStream.push isComplete extractResult e s).resolved = Option.none := by
  unfold EventStream.push
  split
  · exact hs
  · simp only [he, if_false, Bool.false_eq_true]
    split <;> simpa using hs

/-- No sequence of non-completing operations can resolve the future. -/
theorem eventStream_unresolved_invariant {E R : Type} (isComplete : E → Bool)
    (extractResult : E → R) (ops : List (EventStreamOp E R))
    (s : EventStreamState E R) (hs : s.resolved = Option.none)
    (h : ∀ op ∈ ops, EventStreamOp.nonCompleting isComplete op) :
    (EventStream.applyOps isComplete extractResult ops s).resolved = Option.none := by
  induction ops generalizing s with
  | nil => simpa [EventStream.applyOps] using hs
  | cons op rest ih =>
    have hop := h op (List.mem_cons_self op rest)
    have hrest : ∀ o ∈ rest, EventStreamOp.nonCompleting isComplete o :=
      fun o ho => h o (List.mem_cons_of_mem op ho)
    cases op with
    | push e =>
      exact ih _ (eventStream_push_nonCompleting isComplete extractResult e s hs hop) hrest
    | endOp r =>
      have hr : r = Option.none := hop
      subst hr
      refine ih _ ?_ hrest
      simp [EventStream.endOp, EventStream.applyOp, hs, Option.orElse]

/-- C10: `end()` with no result closes the stream and releases all
suspended consumers with an end-of-sequence signal while leaving the
terminal future and the buffer untouched; `end(result)` resolves a
still-pending future; and when no pushed event ever satisfied the
completion predicate and every `end()` was called without a result,
the future returned by `result()` is never resolved. -/
theorem claim_C10_event_stream_end {E R : Type} (isComplete : E → Bool)
    (extractResult : E → R) (s : EventStreamState E R) (result : R)
    (ops : List (EventStreamOp E R))
    (h : ∀ op ∈ ops, EventStreamOp.nonCompleting isComplete op) :
    (EventStream.endOp Option.none s).done = true
    ∧ (EventStream.endOp Option.none s).waitingCount = 0
    ∧ (EventStream.endOp Option.none s).resolved = s.resolved
    ∧ (EventStream.endOp Option.none s).queue = s.queue
    ∧ (s.resolved = Option.none →
        (EventStream.endOp (some result) s).resolved = some result)
    ∧ (EventStream.applyOps isComplete extractResult ops
        (EventStream.init E R)).resolved = Option.none := by
  refine ⟨rfl, rfl, ?_, rfl, ?_, ?_⟩
  · simp [EventStream.endOp, Option.orElse]
  · intro hs; simp [EventStream.endOp, hs, Option.orElse]
  · exact eventStream_unresolved_invariant isComplete extractResult ops _ rfl h

/-- C10 witness: a stream of naturals completed by the event `7`,
driven by non-completing pushes around an `end()` without result: the
future stays unresolved. -/
theorem claim_C10_witness :
    (EventStream.applyOps (fun n => n == 7) (fun n => n)
      [EventStreamOp.push 1, EventStreamOp.endOp Option.none, EventStreamOp.push 3]
      (EventStream.init Nat Nat)).resolved = Option.none :=
  (claim_C10_event_stream_end (fun n => n == 7) (fun n => n)
    (EventStream.init Nat Nat) 0
    [EventStreamOp.push 1, EventStreamOp.endOp Option.none, EventStreamOp.push 3]
    (by intro op hop
        simp only [List.mem_cons, List.not_mem_nil, or_false] at hop
        rcases hop with h | h | h <;> subst h <;> rfl)).2.2.2.2.2

/-- C3: when `finish()` runs without a pending cancellation, a draft
whose (defaulted) stop reason is `stop` freezes to `tool_use` iff the
frozen part list contains a tool-call part and to `stop` otherwise,
and a stop reason other than `stop` is never promoted — it is frozen
unchanged. -/
theorem claim_C3_finish_tool_use_promotion (model : Model) (ab : Bool)
    (draft : AssistantMessageDraft) (hab : ab = false) :
    (draft.stopReason.getD .stop = .stop →
      (((StreamController.finish model ab draft).1.stopReason = .tool_use) ↔
        draft.content.any AssistantPart.isToolCall = true)
      ∧ (draft.content.any AssistantPart.isToolCall = false →
        (StreamController.finish model ab draft).1.stopReason = .stop))
    ∧ (draft.stopReason.getD .stop ≠ .stop →
      (StreamController.finish model ab draft).1.stopReason = draft.stopReason.getD .stop) := by
  subst hab
  constructor
  · intro hs
    constructor
    · by_cases ht : draft.content.any AssistantPart.isToolCall = true
      · simp [StreamController.finish, hs, ht]
      · simp only [Bool.not_eq_true] at ht
        simp [StreamController.finish, hs, ht]
    · intro ht
      simp [StreamController.finish, hs, ht]
  · intro hs
    by_cases ht : draft.content.any AssistantPart.isToolCall = true
    · simp only [StreamController.finish, Bool.false_eq_true, if_false, ht, true_and]
      rw [if_neg hs]
      split <;> rfl
    · simp only [Bool.not_eq_true] at ht
      simp only [StreamController.finish, Bool.false_eq_true, if_false, ht,
        Bool.false_eq_true, false_and, if_false]
      split <;> rfl

/-- C3 witness: the promotion fires on a concrete tool-call draft,
leaves a concrete text-only draft at `stop`, and does not promote a
concrete `length` draft despite its tool call. -/
theorem claim_C3_witness :
    (StreamController.finish sampleModel false draftWithToolCall).1.stopReason =
      StopReason.tool_use
    ∧ (StreamController.finish sampleModel false draftTextOnly).1.stopReason =
      StopReason.stop
    ∧ (StreamController.finish sampleModel false draftLengthWithToolCall).1.stopReason =
      StopReason.length :=
  ⟨((claim_C3_finish_tool_use_promotion sampleModel false draftWithToolCall rfl).1
      rfl).1.mpr rfl,
   ((claim_C3_finish_tool_use_promotion sampleModel false draftTextOnly rfl).1
      rfl).2 rfl,
   (claim_C3_finish_tool_use_promotion sampleModel false draftLengthWithToolCall rfl).2
      (by decide)⟩

/-- The non-matching branch of `normalizeAssistantMessage` is exactly
a filter that drops thinking parts and keeps every other part
unchanged. -/
theorem normalizeAssistant_filterMap_eq_filter (parts : List AssistantPart) :
    (parts.filterMap (fun part =>
      match part with
      | .text t m => some (.text t m)
      | .thinking _ _ => none
      | .tool_call id name args m => some (.tool_call id name args m))) =
    parts.filter (fun p => !p.isThinking) := by
  induction parts with
  | nil => rfl
  | cons p rest ih =>
    cases p <;> simp [AssistantPart.isThinking, List.filterMap_cons, List.filter_cons, ih]

/-- C2: normalizing an assistant entry whose recorded backend/model
does not match the target drops exactly the thinking parts and keeps
every text and tool-call part unchanged and in order (and strips the
backend tag of the rebuilt entry). -/
theorem claim_C2_cross_backend_normalization (targetProvider : Provider)
    (targetModel : Str) (msg : AssistantMessageInput)
    (h : ¬(msg.provider = some targetProvider ∧ msg.model = some targetModel)) :
    (normalizeAssistantMessage targetProvider targetModel msg).content =
      Sum.inr ((coerceAssistantContent msg.content).filter (fun p => !p.isThinking))
    ∧ (normalizeAssistantMessage targetProvider targetModel msg).provider = Option.none
    ∧ (normalizeAssistantMessage targetProvider targetModel msg).model = Option.none := by
  unfold normalizeAssistantMessage
  rw [if_neg h]
  exact ⟨congrArg Sum.inr (normalizeAssistant_filterMap_eq_filter _), rfl, rfl⟩

/-- C2 witness: the claim applied to a concrete Anthropic-tagged entry
normalized for an OpenAI target. -/
theorem claim_C2_witness :
    (normalizeAssistantMessage Provider.openai "gpt-5.2".toList
        crossBackendAssistantMsg).content =
      Sum.inr ((coerceAssistantContent crossBackendAssistantMsg.content).filter
        (fun p => !p.isThinking)) :=
  (claim_C2_cross_backend_normalization Provider.openai "gpt-5.2".toList
    crossBackendAssistantMsg (by decide)).1

/-- The normalizer's message pipeline preserves every tool entry
(with `isError` defaulted) and introduces or removes none. -/
theorem normalizeMessages_toolEntries (targetProvider : Provider) (targetModel : Str)
    (msgs : List Message) :
    (((msgs.filterMap (normalizeMessageStep targetProvider targetModel)).filter
        normalizeMessageKeep).filterMap toolEntry) =
      (msgs.filterMap toolEntry).map
        (fun m => { m with isError := some (m.isError.getD false) }) := by
  induction msgs with
  | nil => rfl
  | cons msg rest ih =>
    cases msg with
    | system c =>
      simpa [List.filterMap_cons, normalizeMessageStep, toolEntry] using ih
    | user c =>
      simp only [List.filterMap_cons, normalizeMessageStep, List.filter_cons]
      split
      · simpa [List.filterMap_cons, toolEntry] using ih
      · simpa [toolEntry] using ih
    | assistant m =>
      simp only [List.filterMap_cons, normalizeMessageStep, List.filter_cons]
      split
      · simpa [List.filterMap_cons, toolEntry] using ih
      · simpa [toolEntry] using ih
    | tool m =>
      simp only [List.filterMap_cons, normalizeMessageStep, List.filter_cons]
      simpa [List.filterMap_cons, normalizeMessageKeep, toolEntry] using ih

/-- C4: every tool-result entry survives normalization as a tool entry
with all fields unchanged except that a missing `isError` defaults to
`false`; no tool entry is dropped, reordered, or converted into
transcript text, regardless of its call id. -/
theorem claim_C4_tool_results_preserved (target : Model) (ctx : Context) :
    (normalizeContextForTarget target ctx).messages.filterMap toolEntry =
      (ctx.messages.filterMap toolEntry).map
        (fun m => { m with isError := some (m.isError.getD false) }) :=
  normalizeMessages_toolEntries target.provider target.id ctx.messages

/-- The tool loop on a call list whose first handler-less call sits at
index `k`: the `k` earlier calls execute in order (appending their
tool messages), then the loop emits the terminal `Unknown tool` error
carrying the history as of that point and stops. -/
theorem runToolCalls_unknown_tool (handlers : ToolHandlers) (turn : Nat)
    (calls : List ToolCallPart) (msgs : List Message) (k : Nat) (hk : k < calls.length)
    (hmiss : handlers (calls.get ⟨k, hk⟩).name = none)
    (hprev : ∀ j (hj : j < k),
      (handlers (calls.get ⟨j, Nat.lt_trans hj hk⟩).name).isSome) :
    runToolCalls handlers turn calls msgs =
      (msgs ++ (calls.take k).map (fun c => Message.tool (toolMessageFor handlers c)),
       (calls.take k).map (fun c =>
           AgentStreamEvent.tool_result turn (toolMessageFor handlers c)) ++
         [AgentStreamEvent.error
           { messages := msgs ++
               (calls.take k).map (fun c => Message.tool (toolMessageFor handlers c)),
             stopReason := .error,
             errorMessage := some ("Unknown tool: ".toList ++
               (calls.get ⟨k, hk⟩).name) }],
       true) := by
  induction calls generalizing k msgs with
  | nil => exact absurd hk (by simp)
  | cons call rest ih =>
    cases k with
    | zero =>
      have h0 : handlers call.name = none := hmiss
      simp [runToolCalls, h0]
    | succ k =>
      have hsome : (handlers call.name).isSome := hprev 0 (Nat.succ_pos k)
      obtain ⟨handler, hhandler⟩ := Option.isSome_iff_exists.mp hsome
      have hk' : k < rest.length := Nat.succ_lt_succ_iff.mp hk
      have hmiss' : handlers (rest.get ⟨k, hk'⟩).name = none := hmiss
      have hprev' : ∀ j (hj : j < k),
          (handlers (rest.get ⟨j, Nat.lt_trans hj hk'⟩).name).isSome :=
        fun j hj => hprev (j + 1) (Nat.succ_lt_succ hj)
      unfold runToolCalls
      rw [hhandler]
      cases houtcome : handler call.args call with
      | ok content =>
        have hmsg : toolMessageFor handlers call =
            { toolCallId := call.id, toolName := call.name, content := content,
              isError := some false } := by
          simp [toolMessageFor, hhandler, houtcome]
        simp only [houtcome]
        rw [ih _ _ hk' hmiss' hprev']
        simp [hmsg, List.take_succ_cons]
      | thrown message =>
        have hmsg : toolMessageFor handlers call =
            { toolCallId := call.id, toolName := call.name, content := message,
              isError := some true } := by
          simp [toolMessageFor, hhandler, houtcome]
        simp only [houtcome]
        rw [ih _ _ hk' hmiss' hprev']
        simp [hmsg, List.take_succ_cons]

/-- C9: when the turn's assistant message contains tool calls and the
first call without a handler sits at index `k`, the agent appends the
assistant turn, executes exactly the `k` earlier calls in call order
(appending their tool entries), then terminates immediately with a
terminal `error` event whose message is `Unknown tool: <name>` —
executing nothing for the unmatched call or any later call. -/
theorem claim_C9_agent_unknown_tool (handlers : ToolHandlers) (turn : Nat)
    (history : List Message) (assistant : AssistantMessage) (k : Nat)
    (hstop : ¬(assistant.stopReason = .error ∨ assistant.stopReason = .aborted))
    (hk : k < (toolCalls assistant.content).length)
    (hmiss : handlers ((toolCalls assistant.content).get ⟨k, hk⟩).name = none)
    (hprev : ∀ j (hj : j < k),
      (handlers ((toolCalls assistant.content).get ⟨j, Nat.lt_trans hj hk⟩).name).isSome) :
    agentTurnAfterStream handlers turn history assistant =
      (history ++ Message.ofAssistant assistant ::
         ((toolCalls assistant.content).take k).map
           (fun c => Message.tool (toolMessageFor handlers c)),
       ((toolCalls assistant.content).take k).map (fun c =>
           AgentStreamEvent.tool_result turn (toolMessageFor handlers c)) ++
         [AgentStreamEvent.error
           { messages := history ++ Message.ofAssistant assistant ::
               ((toolCalls assistant.content).take k).map
                 (fun c => Message.tool (toolMessageFor handlers c)),
             stopReason := .error,
             errorMessage := some ("Unknown tool: ".toList ++
               ((toolCalls assistant.content).get ⟨k, hk⟩).name) }],
       true) := by
  have hne : (toolCalls assistant.content).isEmpty = false := by
    cases hcalls : toolCalls assistant.content with
    | nil => rw [hcalls] at hk; exact absurd hk (by simp)
    | cons a l => rfl
  unfold agentTurnAfterStream
  rw [if_neg hstop]
  simp only [hne, Bool.false_eq_true, if_false]
  rw [runToolCalls_unknown_tool handlers turn (toolCalls assistant.content)
    (history ++ [Message.ofAssistant assistant]) k hk hmiss hprev]
  simp

/-- C9 witness: the claim applied to the concrete turn that invokes
`search` (handled) and then the unknown `compute`. -/
theorem claim_C9_witness :
    agentTurnAfterStream handlersC9 0 [] assistantC9 =
      ([] ++ Message.ofAssistant assistantC9 ::
         ((toolCalls assistantC9.content).take 1).map
           (fun c => Message.tool (toolMessageFor handlersC9 c)),
       ((toolCalls assistantC9.content).take 1).map (fun c =>
           AgentStreamEvent.tool_result 0 (toolMessageFor handlersC9 c)) ++
         [AgentStreamEvent.error
           { messages := [] ++ Message.ofAssistant assistantC9 ::
               ((toolCalls assistantC9.content).take 1).map
                 (fun c => Message.tool (toolMessageFor handlersC9 c)),
             stopReason := .error,
             errorMessage := some ("Unknown tool: ".toList ++
               ((toolCalls assistantC9.content).get ⟨1, by decide⟩).name) }],
       true) :=
  claim_C9_agent_unknown_tool handlersC9 0 [] assistantC9 1
    (by decide) (by decide) rfl
    (by intro j hj
        match j, hj with
        | 0, _ => exact rfl)

/-- Handler-pushed events are never terminal. -/
theorem lift_not_terminal (e : OpenAILifecycleEvent) :
    (OpenAILifecycleEvent.lift e).isTerminal = false := by
  cases e <;> rfl

/-- No terminal event among the loop's pushes. -/
theorem countP_lift_lifecycles (lcs : List OpenAILifecycleEvent) :
    (lcs.map OpenAILifecycleEvent.lift).countP LegacyStreamEvent.isTerminal = 0 := by
  induction lcs with
  | nil => rfl
  | cons e rest ih =>
    simp [List.countP_cons, lift_not_terminal, ih]

/-- The catch block pushes a terminal event. -/
theorem openAICatchEvent_isTerminal (signalAborted : Bool) (model : Model)
    (st : OpenAIStreamState) (m : Str) :
    (openAICatchEvent signalAborted model st m).isTerminal = true := rfl

/-- The finish block pushes a terminal event (either variant). -/
theorem openAIFinishEvent_isTerminal (signalAborted : Bool) (model : Model)
    (st : OpenAIStreamState) :
    (openAIFinishEvent signalAborted model st).isTerminal = true := by
  unfold openAIFinishEvent
  split
  · simp only []
    split <;> rfl
  · simp only []
    split <;> rfl

/-- C1 (amended): every invocation of the inline `streamOpenAI`
pushes exactly one terminal event, and that terminal event is last;
when the vendor call opens successfully the sequence begins with
`start`, but when opening the vendor call throws, the catch block's
terminal `error` is the only event — it is not preceded by `start`. -/
theorem claim_C1_terminal_event_discipline (pp : Str → Option Json)
    (stringifyItem : OpenAIWireItem → Str) (model : Model)
    (reasoningEffort : ReasoningEffort) (signalAborted : Bool)
    (outcome : OpenAIVendorOutcome) :
    (streamOpenAITrace pp stringifyItem model reasoningEffort signalAborted
        outcome).countP LegacyStreamEvent.isTerminal = 1
    ∧ ((streamOpenAITrace pp stringifyItem model reasoningEffort signalAborted
        outcome).getLast?.map LegacyStreamEvent.isTerminal = some true)
    ∧ (∀ events iterThrow, outcome = .streamEvents events iterThrow →
        (streamOpenAITrace pp stringifyItem model reasoningEffort signalAborted
          outcome).head? = some (.start (OpenAIStreamState.init.snapshot model)))
    ∧ (∀ message, outcome = .openFail message →
        streamOpenAITrace pp stringifyItem model reasoningEffort signalAborted outcome =
          [openAICatchEvent signalAborted model OpenAIStreamState.init message]) := by
  cases outcome with
  | openFail message =>
    refine ⟨?_, ?_, ?_, ?_⟩
    · simp [streamOpenAITrace, List.countP_cons,
        openAICatchEvent_isTerminal signalAborted model OpenAIStreamState.init message]
    · simp [streamOpenAITrace,
        openAICatchEvent_isTerminal signalAborted model OpenAIStreamState.init message]
    · intro events iterThrow h; cases h
    · intro m h; cases h; rfl
  | streamEvents events iterThrow =>
    rcases hrun : runOpenAIEvents pp stringifyItem model reasoningEffort
      OpenAIStreamState.init events with ⟨lcs, st, thrown⟩
    have hterm : (openAITerminalEvent signalAborted model st thrown iterThrow).isTerminal
        = true := by
      cases thrown with
      | some m => exact openAICatchEvent_isTerminal signalAborted model st m
      | none =>
        cases iterThrow with
        | some m => exact openAICatchEvent_isTerminal signalAborted model st m
        | none => exact openAIFinishEvent_isTerminal signalAborted model st
    have htrace : streamOpenAITrace pp stringifyItem model reasoningEffort signalAborted
        (.streamEvents events iterThrow) =
        LegacyStreamEvent.start (OpenAIStreamState.init.snapshot model) ::
          (lcs.map OpenAILifecycleEvent.lift ++
            [openAITerminalEvent signalAborted model st thrown iterThrow]) := by
      simp only [streamOpenAITrace, hrun]
    refine ⟨?_, ?_, ?_, ?_⟩
    · rw [htrace, List.countP_cons, List.countP_append, countP_lift_lifecycles,
        List.countP_cons, List.countP_nil, hterm]
      rfl
    · rw [htrace]
      rw [show LegacyStreamEvent.start (OpenAIStreamState.init.snapshot model) ::
          (lcs.map OpenAILifecycleEvent.lift ++
            [openAITerminalEvent signalAborted model st thrown iterThrow]) =
          (LegacyStreamEvent.start (OpenAIStreamState.init.snapshot model) ::
            lcs.map OpenAILifecycleEvent.lift) ++
            [openAITerminalEvent signalAborted model st thrown iterThrow] from rfl]
      rw [List.getLast?_concat]
      simp [hterm]
    · intro evs it h
      rw [htrace]
      rfl
    · intro m h; cases h

/-- C1: the claim as stated is false — when opening the vendor call
throws (e.g. `client.responses.create` rejects), the catch block's
terminal `error` is the entire observed sequence: it contains a
terminal event but no `start` event, so the terminal event is not
preceded by `start`. -/
theorem claim_C1_counterexample :
    (streamOpenAITrace (fun _ => Option.none) (fun _ => []) sampleModel
        ReasoningEffort.none false (.openFail "network down".toList)).countP
      LegacyStreamEvent.isTerminal = 1
    ∧ (streamOpenAITrace (fun _ => Option.none) (fun _ => []) sampleModel
        ReasoningEffort.none false (.openFail "network down".toList)).countP
      LegacyStreamEvent.isStart = 0
    ∧ (streamOpenAITrace (fun _ => Option.none) (fun _ => []) sampleModel
        ReasoningEffort.none false (.openFail "network down".toList)).length = 1 :=
  ⟨rfl, rfl, rfl⟩

/-- C1 witness: the amended theorem applied at a concrete successful
open with an empty vendor stream — the trace begins with `start`. -/
theorem claim_C1_witness :
    (streamOpenAITrace (fun _ => Option.none) (fun _ => []) sampleModel
        ReasoningEffort.none false (.streamEvents [] Option.none)).head? =
      some (.start (OpenAIStreamState.init.snapshot sampleModel)) :=
  (claim_C1_terminal_event_discipline (fun _ => Option.none) (fun _ => []) sampleModel
    ReasoningEffort.none false (.streamEvents [] Option.none)).2.2.1 [] Option.none rfl

/-- The head surviving `dropWhile` fails the predicate. -/
theorem head_dropWhile_not (p : Char → Bool) (l : Str) :
    ∀ c ∈ (l.dropWhile p).head?, p c = false := by
  induction l with
  | nil => intro c hc; cases hc
  | cons a t ih =>
    intro c hc
    by_cases ha : p a
    · rw [List.dropWhile_cons_of_pos ha] at hc
      exact ih c hc
    · rw [List.dropWhile_cons_of_neg ha] at hc
      simp only [List.head?_cons, Option.mem_def, Option.some.injEq] at hc
      subst hc
      exact Bool.not_eq_true _ ▸ (by simpa using ha)

/-- `dropWhile` keeps the last element of a nonempty result equal to
the input's last element. -/
theorem getLast?_dropWhile (p : Char → Bool) (l : Str)
    (h : l.dropWhile p ≠ []) : (l.dropWhile p).getLast? = l.getLast? := by
  obtain ⟨t, ht⟩ := (List.dropWhile_suffix p (l := l))
  conv_rhs => rw [← ht]
  rw [List.getLast?_append_of_ne_nil t h]

/-- `dropWhile` is the identity when the head already fails the
predicate. -/
theorem dropWhile_eq_self_of_head (p : Char → Bool) (l : Str)
    (h : ∀ c ∈ l.head?, p c = false) : l.dropWhile p = l := by
  cases l with
  | nil => rfl
  | cons a t =>
    have ha : p a = false := h a rfl
    simp [List.dropWhile_cons, ha]

/-- A trimmed string has no whitespace at either edge. -/
theorem jsTrim_noEdgeWs (s : Str) : noEdgeWs (jsTrim s) := by
  unfold jsTrim noEdgeWs
  constructor
  · intro c hc
    rw [List.head?_reverse] at hc
    by_cases hv : ((s.dropWhile isJsWs).reverse.dropWhile isJsWs) = []
    · rw [hv] at hc; cases hc
    · rw [getLast?_dropWhile isJsWs _ hv, List.getLast?_reverse] at hc
      exact head_dropWhile_not isJsWs s c hc
  · intro c hc
    rw [List.getLast?_reverse] at hc
    exact head_dropWhile_not isJsWs _ c hc

/-- A string with clean edges is a fixed point of `jsTrim`. -/
theorem jsTrim_eq_self (s : Str) (h : noEdgeWs s) : jsTrim s = s := by
  unfold jsTrim
  rw [dropWhile_eq_self_of_head isJsWs s h.1]
  rw [dropWhile_eq_self_of_head isJsWs s.reverse
    (by intro c hc; rw [List.head?_reverse] at hc; exact h.2 c hc)]
  exact List.reverse_reverse s

/-- Joining nonempty clean-edged pieces yields a nonempty clean-edged
string (the separator only ever sits in the interior). -/
theorem joinSep_trimmed (sep : Str) (pieces : List Str) (hne : pieces ≠ [])
    (h : ∀ p ∈ pieces, p ≠ [] ∧ noEdgeWs p) :
    joinSep sep pieces ≠ [] ∧ noEdgeWs (joinSep sep pieces) := by
  induction pieces with
  | nil => exact absurd rfl hne
  | cons p ps ih =>
    cases ps with
    | nil =>
      have hp := h p (List.mem_cons_self p [])
      simpa [joinSep] using hp
    | cons q rest =>
      have hp := h p (List.mem_cons_self p (q :: rest))
      have hrest : ∀ x ∈ q :: rest, x ≠ [] ∧ noEdgeWs x :=
        fun x hx => h x (List.mem_cons_of_mem p hx)
      have hjoin := ih (by simp) hrest
      have hassoc : joinSep sep (p :: q :: rest) =
          (p ++ sep) ++ joinSep sep (q :: rest) := by
        simp [joinSep, List.append_assoc]
      refine ⟨?_, ?_, ?_⟩
      · rw [hassoc]
        intro hbad
        exact hjoin.1 (List.append_eq_nil.mp hbad).2
      · intro c hc
        rw [hassoc] at hc
        obtain ⟨a, t, hpe⟩ : ∃ a t, p = a :: t := by
          cases hpcase : p with
          | nil => exact absurd hpcase hp.1
          | cons a t => exact ⟨a, t, rfl⟩
        rw [hpe] at hc
        simp only [List.cons_append, List.head?_cons, Option.mem_def,
          Option.some.injEq] at hc
        subst hc
        exact hp.2.1 _ (by rw [hpe]; rfl)
      · intro c hc
        rw [hassoc, List.getLast?_append_of_ne_nil _ hjoin.1] at hc
        exact hjoin.2.2 c hc

/-- `filterMap` is the identity when `f` maps every member to itself. -/
theorem list_filterMap_id_of {α : Type} (f : α → Option α) (l : List α)
    (h : ∀ x ∈ l, f x = some x) : l.filterMap f = l := by
  induction l with
  | nil => rfl
  | cons a t ih =>
    rw [List.filterMap_cons, h a (List.mem_cons_self a t),
      ih (fun x hx => h x (List.mem_cons_of_mem a hx))]

/-- `filterMap` produces nothing when `f` rejects every member. -/
theorem list_filterMap_nil_of {α β : Type} (f : α → Option β) (l : List α)
    (h : ∀ x ∈ l, f x = none) : l.filterMap f = [] := by
  induction l with
  | nil => rfl
  | cons a t ih =>
    rw [List.filterMap_cons, h a (List.mem_cons_self a t),
      ih (fun x hx => h x (List.mem_cons_of_mem a hx))]

/-- A matching assistant entry is normalized by coercing its content
to a part list and changing nothing else. -/
theorem normalizeAssistantMessage_matching (tp : Provider) (tm : Str)
    (a : AssistantMessageInput) (ha : a.provider = some tp ∧ a.model = some tm) :
    normalizeAssistantMessage tp tm a =
      { a with content := .inr (coerceAssistantContent a.content) } := by
  unfold normalizeAssistantMessage
  rw [if_pos ha]

/-- Normalizing a matching assistant entry is idempotent. -/
theorem normalizeAssistantMessage_idem_of_matching (tp : Provider) (tm : Str)
    (a : AssistantMessageInput) (ha : a.provider = some tp ∧ a.model = some tm) :
    normalizeAssistantMessage tp tm (normalizeAssistantMessage tp tm a) =
      normalizeAssistantMessage tp tm a := by
  rw [normalizeAssistantMessage_matching tp tm a ha]
  rw [normalizeAssistantMessage_matching tp tm _ (by simpa using ha)]
  rfl

/-- Every message surviving the normalizer's pipeline is a fixed point
of the rewrite step, passes the keep-filter, and is never a system
entry — provided every assistant entry of the input already carried
the target tag. -/
theorem normalizeMessages_fixpoint (tp : Provider) (tm : Str) (msgs : List Message)
    (h : ∀ a, Message.assistant a ∈ msgs → a.provider = some tp ∧ a.model = some tm) :
    ∀ m ∈ (msgs.filterMap (normalizeMessageStep tp tm)).filter normalizeMessageKeep,
      normalizeMessageStep tp tm m = some m ∧ (∀ c, m ≠ Message.system c) := by
  intro m hm
  have hm' := (List.mem_filter.mp hm).1
  obtain ⟨a0, ha0mem, ha0⟩ := List.mem_filterMap.mp hm'
  cases a0 with
  | system c => simp [normalizeMessageStep] at ha0
  | user c =>
    simp only [normalizeMessageStep, Option.some.injEq] at ha0
    subst ha0
    exact ⟨rfl, fun c hc => by cases hc⟩
  | assistant mm =>
    simp only [normalizeMessageStep, Option.some.injEq] at ha0
    subst ha0
    refine ⟨?_, fun c hc => by cases hc⟩
    simp only [normalizeMessageStep, Option.some.injEq]
    rw [normalizeAssistantMessage_idem_of_matching tp tm mm (h mm ha0mem)]
  | tool mm =>
    simp only [normalizeMessageStep, Option.some.injEq] at ha0
    subst ha0
    refine ⟨?_, fun c hc => by cases hc⟩
    simp only [normalizeMessageStep, Option.some.injEq]
    rfl

/-- Nothing surviving the normalizer's pipeline contributes a system
piece on a second pass. -/
theorem normalize_no_system_piece (tp : Provider) (tm : Str) (msgs : List Message) :
    ∀ m ∈ (msgs.filterMap (normalizeMessageStep tp tm)).filter normalizeMessageKeep,
      normalizeSystemPiece m = none := by
  intro m hm
  have hm' := (List.mem_filter.mp hm).1
  obtain ⟨a0, _, ha0⟩ := List.mem_filterMap.mp hm'
  cases a0 with
  | system c => simp [normalizeMessageStep] at ha0
  | user c =>
    simp only [normalizeMessageStep, Option.some.injEq] at ha0
    subst ha0; rfl
  | assistant mm =>
    simp only [normalizeMessageStep, Option.some.injEq] at ha0
    subst ha0; rfl
  | tool mm =>
    simp only [normalizeMessageStep, Option.some.injEq] at ha0
    subst ha0; rfl

/-- Every piece collected into `systemParts` is nonempty and
clean-edged (each is a `jsTrim` image with positive length). -/
theorem systemParts_trimmed (ctx : Context) :
    ∀ p ∈ ((match ctx.system with
      | some s => if (jsTrim s).length > 0 then [jsTrim s] else []
      | none => []) ++ ctx.messages.filterMap normalizeSystemPiece),
      p ≠ [] ∧ noEdgeWs p := by
  intro p hp
  rcases List.mem_append.mp hp with hp1 | hp2
  · match hctx : ctx.system with
    | some s =>
      rw [hctx] at hp1
      dsimp only [] at hp1
      by_cases hlen : (jsTrim s).length > 0
      · rw [if_pos hlen] at hp1
        simp only [List.mem_singleton] at hp1
        subst hp1
        exact ⟨List.ne_nil_of_length_pos hlen, jsTrim_noEdgeWs s⟩
      · rw [if_neg hlen] at hp1
        cases hp1
    | none =>
      rw [hctx] at hp1
      cases hp1
  · obtain ⟨m, _, hm⟩ := List.mem_filterMap.mp hp2
    cases m with
    | system c =>
      simp only [normalizeSystemPiece] at hm
      by_cases hlen : (jsTrim c).length > 0
      · rw [if_pos hlen] at hm
        cases hm
        exact ⟨List.ne_nil_of_length_pos hlen, jsTrim_noEdgeWs c⟩
      · rw [if_neg hlen] at hm
        cases hm
    | user c => simp [normalizeSystemPiece] at hm
    | assistant mm => simp [normalizeSystemPiece] at hm
    | tool mm => simp [normalizeSystemPiece] at hm

/-- Field-wise extensionality for `Context`. -/
theorem Context.ext' (a b : Context) (h1 : a.system = b.system)
    (h2 : a.messages = b.messages) (h3 : a.tools = b.tools) : a = b := by
  cases a; cases b
  simp_all

/-- The merged system string survives a second normalization pass
unchanged. -/
theorem normalize_system_idem (target : Model) (ctx : Context) :
    (normalizeContextForTarget target (normalizeContextForTarget target ctx)).system =
      (normalizeContextForTarget target ctx).system := by
  have hB2 : (normalizeContextForTarget target ctx).messages.filterMap
      normalizeSystemPiece = [] :=
    list_filterMap_nil_of _ _ (normalize_no_system_piece target.provider target.id ctx.messages)
  have hNsys : (normalizeContextForTarget target ctx).system =
      (if ((match ctx.system with
        | some s => if (jsTrim s).length > 0 then [jsTrim s] else []
        | none => []) ++ ctx.messages.filterMap normalizeSystemPiece).length > 0
       then some (joinSep "\n\n".toList
         ((match ctx.system with
           | some s => if (jsTrim s).length > 0 then [jsTrim s] else []
           | none => []) ++ ctx.messages.filterMap normalizeSystemPiece))
       else none) := rfl
  have hN2sys : (normalizeContextForTarget target (normalizeContextForTarget target ctx)).system =
      (if ((match (normalizeContextForTarget target ctx).system with
        | some s => if (jsTrim s).length > 0 then [jsTrim s] else []
        | none => []) ++ (normalizeContextForTarget target ctx).messages.filterMap
          normalizeSystemPiece).length > 0
       then some (joinSep "\n\n".toList
         ((match (normalizeContextForTarget target ctx).system with
           | some s => if (jsTrim s).length > 0 then [jsTrim s] else []
           | none => []) ++ (normalizeContextForTarget target ctx).messages.filterMap
             normalizeSystemPiece))
       else none) := rfl
  rw [hN2sys, hB2, List.append_nil]
  by_cases hsp : ((match ctx.system with
      | some s => if (jsTrim s).length > 0 then [jsTrim s] else []
      | none => []) ++ ctx.messages.filterMap normalizeSystemPiece).length > 0
  · have hS := joinSep_trimmed "\n\n".toList _
      (List.ne_nil_of_length_pos hsp) (systemParts_trimmed ctx)
    have hNsys' : (normalizeContextForTarget target ctx).system =
        some (joinSep "\n\n".toList
          ((match ctx.system with
            | some s => if (jsTrim s).length > 0 then [jsTrim s] else []
            | none => []) ++ ctx.messages.filterMap normalizeSystemPiece)) := by
      rw [hNsys, if_pos hsp]
    rw [hNsys']
    dsimp only []
    rw [jsTrim_eq_self _ hS.2]
    rw [if_pos (List.length_pos.mpr hS.1)]
    rw [if_pos (by simp)]
    rfl
  · have hNsys' : (normalizeContextForTarget target ctx).system = none := by
      rw [hNsys, if_neg hsp]
    rw [hNsys']
    dsimp only []
    rfl

/-- The normalized message list survives a second normalization pass
unchanged when every assistant entry of the input carried the target
tag. -/
theorem normalize_messages_idem (target : Model) (ctx : Context)
    (h : ∀ a, Message.assistant a ∈ ctx.messages →
      a.provider = some target.provider ∧ a.model = some target.id) :
    (normalizeContextForTarget target (normalizeContextForTarget target ctx)).messages =
      (normalizeContextForTarget target ctx).messages := by
  have hfix := normalizeMessages_fixpoint target.provider target.id ctx.messages h
  show (((ctx.messages.filterMap (normalizeMessageStep target.provider target.id)).filter
      normalizeMessageKeep).filterMap (normalizeMessageStep target.provider target.id)).filter
      normalizeMessageKeep =
    (ctx.messages.filterMap (normalizeMessageStep target.provider target.id)).filter
      normalizeMessageKeep
  rw [list_filterMap_id_of _ _ (fun x hx => (hfix x hx).1)]
  exact List.filter_eq_self.mpr (fun x hx => (List.mem_filter.mp hx).2)

/-- C7: normalizing a conversation whose assistant entries all carry
the target backend/model tag is idempotent — a second pass returns
the same merged system string, the same entry list (same part lists
and `isError` defaults) and the same tools. -/
theorem claim_C7_normalize_idempotent (target : Model) (ctx : Context)
    (h : ∀ a, Message.assistant a ∈ ctx.messages →
      a.provider = some target.provider ∧ a.model = some target.id) :
    normalizeContextForTarget target (normalizeContextForTarget target ctx) =
      normalizeContextForTarget target ctx :=
  Context.ext' _ _
    (normalize_system_idem target ctx)
    (normalize_messages_idem target ctx h)
    rfl

/-- C7 witness: idempotence at the concrete conversation `ctxC7`,
whose single assistant entry carries the target tag. -/
theorem claim_C7_witness :
    normalizeContextForTarget sampleModel (normalizeContextForTarget sampleModel ctxC7) =
      normalizeContextForTarget sampleModel ctxC7 :=
  claim_C7_normalize_idempotent sampleModel ctxC7
    (by intro a ha
        simp only [ctxC7, List.mem_cons, List.not_mem_nil, or_false] at ha
        rcases ha with h | h | h | h <;> first
          | (injection h with h'; subst h'; exact ⟨rfl, rfl⟩)
          | (cases h))
